import Mathlib

/-!
Verification of the blueprinter-app core against its specification.

The development shallowly embeds the Python sources:
  * `backend/app/langgraph/graph.py`   — plan-generation pipeline and StyleAdapter
  * `backend/app/utils/json_patch.py`  — allow-listed JSON Patch engine
  * `backend/app/openai_client.py`     — plan-synthesis payload normalization
  * `backend/app/api/routes/plan_patch.py` — the patch route handler

Python `dict`/`list` JSON values are embedded as the inductive `Json`;
Python strings are embedded as `List Char` where character-level reasoning
is needed and as `String` for identifiers and paths.  Fallible code returns
`Except String`.
-/

namespace Blueprinter

/-- A JSON value as handled by the Python code (dicts embedded as ordered
association lists, mirroring CPython's insertion-ordered `dict`). -/
inductive Json where
  | null : Json
  | bool (b : Bool) : Json
  | num (n : Int) : Json
  | str (s : String) : Json
  | arr (elements : List Json) : Json
  | obj (entries : List (String × Json)) : Json

mutual

/-- Structural equality test on `Json` (Python `==` on JSON trees built of
insertion-ordered dicts, compared here entry-by-entry). -/
def beqJ : Json → Json → Bool
  | .null, .null => true
  | .bool a, .bool b => a == b
  | .num a, .num b => a == b
  | .str a, .str b => a == b
  | .arr xs, .arr ys => beqL xs ys
  | .obj xs, .obj ys => beqO xs ys
  | _, _ => false

def beqL : List Json → List Json → Bool
  | [], [] => true
  | u :: us, v :: vs => beqJ u v && beqL us vs
  | _, _ => false

def beqO : List (String × Json) → List (String × Json) → Bool
  | [], [] => true
  | (k, v) :: us, (k2, v2) :: vs => k == k2 && beqJ v v2 && beqO us vs
  | _, _ => false

end

mutual

theorem beqJ_iff : ∀ a b : Json, beqJ a b = true ↔ a = b
  | .null, .null => by simp [beqJ]
  | .bool a, .bool b => by simp [beqJ]
  | .num a, .num b => by simp [beqJ]
  | .str a, .str b => by simp [beqJ]
  | .arr xs, .arr ys => by
    simp only [beqJ, Json.arr.injEq]
    exact beqL_iff xs ys
  | .obj xs, .obj ys => by
    simp only [beqJ, Json.obj.injEq]
    exact beqO_iff xs ys
  | .null, .bool _ | .null, .num _ | .null, .str _ | .null, .arr _ | .null, .obj _
  | .bool _, .null | .bool _, .num _ | .bool _, .str _ | .bool _, .arr _ | .bool _, .obj _
  | .num _, .null | .num _, .bool _ | .num _, .str _ | .num _, .arr _ | .num _, .obj _
  | .str _, .null | .str _, .bool _ | .str _, .num _ | .str _, .arr _ | .str _, .obj _
  | .arr _, .null | .arr _, .bool _ | .arr _, .num _ | .arr _, .str _ | .arr _, .obj _
  | .obj _, .null | .obj _, .bool _ | .obj _, .num _ | .obj _, .str _ | .obj _, .arr _ => by
    simp [beqJ]

theorem beqL_iff : ∀ xs ys : List Json, beqL xs ys = true ↔ xs = ys
  | [], [] => by simp [beqL]
  | x :: xs, y :: ys => by
    simp only [beqL, Bool.and_eq_true, List.cons.injEq]
    exact and_congr (beqJ_iff x y) (beqL_iff xs ys)
  | [], _ :: _ => by simp [beqL]
  | _ :: _, [] => by simp [beqL]

theorem beqO_iff : ∀ xs ys : List (String × Json), beqO xs ys = true ↔ xs = ys
  | [], [] => by simp [beqO]
  | (k, v) :: xs, (k2, v2) :: ys => by
    simp only [beqO, Bool.and_eq_true, List.cons.injEq, Prod.mk.injEq, beq_iff_eq]
    rw [beqJ_iff v v2, beqO_iff xs ys, and_assoc]
  | [], _ :: _ => by simp [beqO]
  | _ :: _, [] => by simp [beqO]

end

instance : DecidableEq Json := fun a b => decidable_of_iff _ (beqJ_iff a b)

/-- Python truthiness of a JSON value (`bool(x)`): `None`, `False`, `0`,
`""`, `[]`, `{}` are falsy, everything else truthy. -/
def Json.truthy : Json → Bool
  | .null => false
  | .bool b => b
  | .num n => n != 0
  | .str s => s != ""
  | .arr elements => !elements.isEmpty
  | .obj entries => !entries.isEmpty

/-- `d.get(k)` on an embedded dict: value of the first matching key. -/
def lookupKey (k : String) : List (String × Json) → Option Json
  | [] => none
  | (k2, v) :: rest => if k2 = k then some v else lookupKey k rest

/-- `d.get(k, dflt)` on an embedded dict. -/
def getKeyD (k : String) (entries : List (String × Json)) (dflt : Json) : Json :=
  (lookupKey k entries).getD dflt

end Blueprinter

namespace Blueprinter

/-! ### Python `str.replace`

`content.replace(old, new)` scans left to right and rewrites non-overlapping
occurrences of `old`.  The StyleAdapter only calls it with single-character
arguments, but we embed the full scanning behaviour. -/

def pyReplaceAux (old new : List Char) (hne : old ≠ []) : List Char → List Char
  | [] => []
  | c :: rest =>
    if h : old.isPrefixOf (c :: rest) then
      new ++ pyReplaceAux old new hne ((c :: rest).drop old.length)
    else
      c :: pyReplaceAux old new hne rest
termination_by l => l.length
decreasing_by
  · simp only [List.length_drop, List.length_cons]
    have h0 : 0 < old.length := List.length_pos.mpr hne
    omega
  · simp

/-- Python `s.replace(old, new)` for a non-empty pattern; with an empty
pattern CPython interleaves `new` around every character. -/
def pyReplace (s old new : List Char) : List Char :=
  if h : old = [] then
    new ++ s.flatMap (fun c => c :: new)
  else
    pyReplaceAux old new h s

/-! ### The semicolon-stripping regex

`re.sub(r';\s*\n', '\n', content)`: at each `;` the greedy, backtracking
match consumes the longest whitespace run that still ends with `\n`
(i.e. it consumes whitespace up to and including the *last* newline of the
whitespace run following the semicolon). -/

/-- Python's `\s` character class. -/
def isPyWs (c : Char) : Bool :=
  c = ' ' || c = '\t' || c = '\n' || c = '\r' || c = '\x0b' || c = '\x0c'

/-- Match `\s*\n` with greedy backtracking at the head of `l`; on success
return the remainder of the input after the match. -/
def wsNl : List Char → Option (List Char)
  | [] => none
  | c :: rest =>
    if c = '\n' then some ((wsNl rest).getD rest)
    else if isPyWs c then wsNl rest
    else none

theorem wsNl_length_le : ∀ l r, wsNl l = some r → r.length ≤ l.length := by
  intro l
  induction l with
  | nil => intro r h; simp [wsNl] at h
  | cons c rest ih =>
    intro r h
    simp only [wsNl] at h
    split at h
    · cases hw : wsNl rest with
      | none =>
        rw [hw] at h
        simp only [Option.getD_none, Option.some.injEq] at h
        subst h
        simp
      | some r2 =>
        rw [hw] at h
        simp only [Option.getD_some, Option.some.injEq] at h
        subst h
        have := ih r2 hw
        simp only [List.length_cons]
        omega
    · split at h
      · have := ih r h
        simp only [List.length_cons]
        omega
      · exact absurd h (by simp)

/-- `re.sub(r';\s*\n', '\n', ·)`: left-to-right scan, replacing each match
of `;\s*\n` by a single newline. -/
def stripSemis : List Char → List Char
  | [] => []
  | c :: rest =>
    if c = ';' then
      match h : wsNl rest with
      | some rest2 => '\n' :: stripSemis rest2
      | none => ';' :: stripSemis rest
    else
      c :: stripSemis rest
termination_by l => l.length
decreasing_by
  · have := wsNl_length_le rest rest2 h
    simp only [List.length_cons]
    omega
  · simp
  · simp

/-! ### StyleAdapter (`style_adaptation_node`, `graph.py` lines 151-199)

The per-file content transform: quote substitution, then semicolon
stripping, then space-to-tab indentation conversion, driven by the style
tokens dict. -/

/-- The style-token fields read by `style_adaptation_node`:
`tokens.get("quotes")` (compared against `"single"`/`"double"`; a missing
or non-string value matches neither), the truthiness of
`tokens.get("semicolons", True)`, `tokens.get("indent", "spaces")`
(compared against `"tabs"`), and `tokens.get("indent_size", 2)`. -/
structure StyleTokens where
  quotes : Option String := none
  semicolons : Bool := true
  indent : String := "spaces"
  indent_size : Nat := 2

/-- `content.split('\n')`. -/
def splitNl : List Char → List (List Char)
  | [] => [[]]
  | c :: rest =>
    if c = '\n' then [] :: splitNl rest
    else
      match splitNl rest with
      | [] => [[c]]
      | l :: ls => (c :: l) :: ls

/-- `'\n'.join(lines)`. -/
def joinNl : List (List Char) → List Char
  | [] => []
  | [l] => l
  | l :: ls => l ++ '\n' :: joinNl ls

/-- One line of the indentation pass: if the line starts with
`indent_size` spaces, replace them by a single tab
(`'\t' + line[indent_size:]`). -/
def indentLine (s : Nat) (line : List Char) : List Char :=
  if line.take s = List.replicate s ' ' then '\t' :: line.drop s else line

/-- Quote normalization step of `style_adaptation_node`. -/
def quoteStep (t : StyleTokens) (c : List Char) : List Char :=
  if t.quotes = some "single" then pyReplace c ['"'] ['\'']
  else if t.quotes = some "double" then pyReplace c ['\''] ['"']
  else c

/-- Semicolon-preference step of `style_adaptation_node`. -/
def semiStep (t : StyleTokens) (c : List Char) : List Char :=
  if t.semicolons then c else stripSemis c

/-- Indentation step of `style_adaptation_node`. -/
def indentStep (t : StyleTokens) (c : List Char) : List Char :=
  if t.indent = "tabs" then joinNl ((splitNl c).map (indentLine t.indent_size)) else c

/-- The complete StyleAdapter content transform applied to each generated
file's `content` by `style_adaptation_node`. -/
def styleTransform (t : StyleTokens) (c : List Char) : List Char :=
  indentStep t (semiStep t (quoteStep t c))

/-! ### Characterization of single-character `str.replace` -/

/-- Pointwise description of a single-character replacement. -/
def swapChar (a b x : Char) : Char := if x = a then b else x

theorem pyReplaceAux_singleton (a b : Char) (hne : ([a] : List Char) ≠ [])
    (s : List Char) : pyReplaceAux [a] [b] hne s = s.map (swapChar a b) := by
  induction s with
  | nil => simp [pyReplaceAux]
  | cons c rest ih =>
    rw [pyReplaceAux]
    by_cases hc : a = c
    · rw [dif_pos (by simp [List.isPrefixOf, hc])]
      simp [swapChar, ← hc, ih]
    · rw [dif_neg (by simp [List.isPrefixOf, hc])]
      simp only [List.map_cons, ih, List.cons.injEq, and_true]
      unfold swapChar
      exact (if_neg (Ne.symm hc)).symm

theorem pyReplace_singleton (a b : Char) (s : List Char) :
    pyReplace s [a] [b] = s.map (swapChar a b) := by
  rw [pyReplace, dif_neg (by simp)]
  exact pyReplaceAux_singleton a b (by simp) s

theorem swapChar_swapChar (a b : Char) (hab : a ≠ b) (x : Char) :
    swapChar a b (swapChar a b x) = swapChar a b x := by
  unfold swapChar
  by_cases hx : x = a
  · simp [hx, Ne.symm hab]
  · simp [hx]

/-! ### Lines infrastructure for the indentation pass -/

theorem splitNl_ne_nil (l : List Char) : splitNl l ≠ [] := by
  induction l with
  | nil => simp [splitNl]
  | cons c rest ih =>
    simp only [splitNl]
    split
    · simp
    · cases h : splitNl rest <;> simp

theorem no_nl_of_mem_splitNl :
    ∀ l : List Char, ∀ line ∈ splitNl l, '\n' ∉ line := by
  intro l
  induction l with
  | nil =>
    intro line hmem
    simp only [splitNl, List.mem_singleton] at hmem
    simp [hmem]
  | cons c rest ih =>
    intro line hmem
    simp only [splitNl] at hmem
    by_cases hc : c = '\n'
    · rw [if_pos hc] at hmem
      rcases List.mem_cons.mp hmem with h | h
      · simp [h]
      · exact ih line h
    · rw [if_neg hc] at hmem
      cases hsp : splitNl rest with
      | nil => exact absurd hsp (splitNl_ne_nil rest)
      | cons l0 ls =>
        rw [hsp] at hmem
        rcases List.mem_cons.mp hmem with h | h
        · subst h
          intro hnl
          rcases List.mem_cons.mp hnl with h2 | h2
          · exact hc h2.symm
          · exact ih l0 (hsp ▸ List.mem_cons_self l0 ls) h2
        · exact ih line (hsp ▸ List.mem_cons_of_mem l0 h)

theorem splitNl_of_no_nl (l : List Char) (h : '\n' ∉ l) : splitNl l = [l] := by
  induction l with
  | nil => simp [splitNl]
  | cons c rest ih =>
    have hc : c ≠ '\n' := fun hc => h (hc ▸ List.mem_cons_self c rest)
    have hrest : '\n' ∉ rest := fun hr => h (List.mem_cons_of_mem c hr)
    simp only [splitNl, if_neg hc, ih hrest]

theorem splitNl_append_nl (l rest : List Char) (h : '\n' ∉ l) :
    splitNl (l ++ '\n' :: rest) = l :: splitNl rest := by
  induction l with
  | nil => simp [splitNl]
  | cons c l2 ih =>
    have hc : c ≠ '\n' := fun hc => h (hc ▸ List.mem_cons_self c l2)
    have hl2 : '\n' ∉ l2 := fun hr => h (List.mem_cons_of_mem c hr)
    have ih2 : splitNl (l2.append ('\n' :: rest)) = l2 :: splitNl rest := ih hl2
    simp only [List.cons_append, splitNl, if_neg hc, ih2]

theorem splitNl_joinNl :
    ∀ ls : List (List Char), ls ≠ [] → (∀ line ∈ ls, '\n' ∉ line) →
      splitNl (joinNl ls) = ls := by
  intro ls
  induction ls with
  | nil => intro h; exact absurd rfl h
  | cons l ls2 ih =>
    intro _ hnl
    cases ls2 with
    | nil =>
      simp only [joinNl]
      exact splitNl_of_no_nl l (hnl l (List.mem_cons_self l []))
    | cons l2 ls3 =>
      have hjoin : joinNl (l :: l2 :: ls3) = l ++ '\n' :: joinNl (l2 :: ls3) := by
        simp [joinNl]
      rw [hjoin, splitNl_append_nl l _ (hnl l (List.mem_cons_self l _))]
      rw [ih (by simp) (fun line hm => hnl line (List.mem_cons_of_mem l hm))]

/-! ### Commutation of character maps with the indentation pass -/

theorem splitNl_map (f : Char → Char) (hf : ∀ x, f x = '\n' ↔ x = '\n') :
    ∀ l : List Char, splitNl (l.map f) = (splitNl l).map (List.map f) := by
  intro l
  induction l with
  | nil => simp [splitNl]
  | cons c rest ih =>
    by_cases hc : c = '\n'
    · have hfc : f c = '\n' := (hf c).mpr hc
      simp only [List.map_cons, splitNl, if_pos hc, if_pos hfc, ih]
      simp
    · have hfc : f c ≠ '\n' := fun h => hc ((hf c).mp h)
      cases hsp : splitNl rest with
      | nil => exact absurd hsp (splitNl_ne_nil rest)
      | cons l0 ls =>
        rw [hsp] at ih
        simp only [List.map_cons, splitNl, if_neg hc, if_neg hfc, ih, hsp]

theorem joinNl_map (f : Char → Char) (hfnl : f '\n' = '\n') :
    ∀ ls : List (List Char), joinNl (ls.map (List.map f)) = (joinNl ls).map f := by
  intro ls
  induction ls with
  | nil => simp [joinNl]
  | cons l ls2 ih =>
    cases ls2 with
    | nil => simp [joinNl]
    | cons l2 ls3 =>
      have h1 : joinNl (l :: l2 :: ls3) = l ++ '\n' :: joinNl (l2 :: ls3) := by simp [joinNl]
      have h2 : joinNl (l.map f :: (l2 :: ls3).map (List.map f)) =
          l.map f ++ '\n' :: joinNl ((l2 :: ls3).map (List.map f)) := by simp [joinNl]
      simp only [List.map_cons] at h2 ⊢
      rw [h2, h1]
      simp only [List.map_append, List.map_cons, hfnl]
      rw [← ih]
      simp

theorem map_eq_replicate_space (f : Char → Char) (hsp : ∀ x, f x = ' ' ↔ x = ' ') :
    ∀ (xs : List Char) (n : Nat),
      xs.map f = List.replicate n ' ' ↔ xs = List.replicate n ' ' := by
  intro xs
  induction xs with
  | nil => intro n; cases n <;> simp [List.replicate_succ]
  | cons c rest ih =>
    intro n
    cases n with
    | zero => simp
    | succ m =>
      simp only [List.map_cons, List.replicate_succ, List.cons.injEq]
      exact and_congr (hsp c) (ih m)

theorem indentLine_map (f : Char → Char) (hsp : ∀ x, f x = ' ' ↔ x = ' ')
    (htab : f '\t' = '\t') (s : Nat) (line : List Char) :
    indentLine s (line.map f) = (indentLine s line).map f := by
  unfold indentLine
  rw [← List.map_take]
  by_cases h : line.take s = List.replicate s ' '
  · rw [if_pos ((map_eq_replicate_space f hsp _ s).mpr h), if_pos h]
    simp [← List.map_drop, htab]
  · rw [if_neg (fun hm => h ((map_eq_replicate_space f hsp _ s).mp hm)), if_neg h]

theorem indentStep_map (t : StyleTokens) (f : Char → Char)
    (hfnl : ∀ x, f x = '\n' ↔ x = '\n') (hsp : ∀ x, f x = ' ' ↔ x = ' ')
    (htab : f '\t' = '\t') (c : List Char) :
    indentStep t (c.map f) = (indentStep t c).map f := by
  unfold indentStep
  by_cases hind : t.indent = "tabs"
  · rw [if_pos hind, if_pos hind]
    rw [splitNl_map f hfnl, ← joinNl_map f ((hfnl '\n').mpr rfl)]
    rw [List.map_map, List.map_map]
    congr 1
    apply List.map_congr_left
    intro line _
    exact indentLine_map f hsp htab t.indent_size line
  · rw [if_neg hind, if_neg hind]

/-! ### Idempotence of the indentation pass -/

theorem indentLine_idem (s : Nat) (hs : 0 < s) (line : List Char) :
    indentLine s (indentLine s line) = indentLine s line := by
  unfold indentLine
  by_cases h : line.take s = List.replicate s ' '
  · rw [if_pos h]
    have hne : ('\t' :: line.drop s).take s ≠ List.replicate s ' ' := by
      cases s with
      | zero => omega
      | succ m =>
        simp only [List.take_succ_cons, List.replicate_succ, ne_eq, List.cons.injEq]
        intro hcontra
        exact absurd hcontra.1 (by decide)
    rw [if_neg hne]
  · rw [if_neg h, if_neg h]

theorem indentLine_no_nl (s : Nat) (line : List Char) (h : '\n' ∉ line) :
    '\n' ∉ indentLine s line := by
  unfold indentLine
  split
  · intro hmem
    rcases List.mem_cons.mp hmem with h2 | h2
    · exact absurd h2.symm (by decide)
    · exact h (List.drop_subset s line h2)
  · exact h

theorem indentStep_idem (t : StyleTokens) (hs : 0 < t.indent_size) (c : List Char) :
    indentStep t (indentStep t c) = indentStep t c := by
  unfold indentStep
  by_cases hind : t.indent = "tabs"
  · rw [if_pos hind, if_pos hind]
    have hlines : ∀ line ∈ (splitNl c).map (indentLine t.indent_size), '\n' ∉ line := by
      intro line hmem
      rcases List.mem_map.mp hmem with ⟨l0, hl0, heq⟩
      exact heq ▸ indentLine_no_nl _ l0 (no_nl_of_mem_splitNl c l0 hl0)
    have hne : (splitNl c).map (indentLine t.indent_size) ≠ [] := by
      simp [splitNl_ne_nil c]
    rw [splitNl_joinNl _ hne hlines, List.map_map]
    congr 1
    apply List.map_congr_left
    intro line _
    exact indentLine_idem t.indent_size hs line
  · rw [if_neg hind, if_neg hind]

/-! ### Quote-step lemmas -/

theorem swapChar_eq_iff (a b y : Char) (hby : b ≠ y) (hay : a ≠ y) (x : Char) :
    swapChar a b x = y ↔ x = y := by
  unfold swapChar
  by_cases hx : x = a
  · simp [hx, hby, hay]
  · simp [hx]

theorem swapChar_fixes (a b y : Char) (hya : y ≠ a) : swapChar a b y = y := by
  simp [swapChar, hya]

theorem quoteStep_idem (t : StyleTokens) (c : List Char) :
    quoteStep t (quoteStep t c) = quoteStep t c := by
  by_cases h1 : t.quotes = some "single"
  · simp only [quoteStep, if_pos h1, pyReplace_singleton, List.map_map]
    apply List.map_congr_left
    intro x _
    exact swapChar_swapChar _ _ (by decide) x
  · by_cases h2 : t.quotes = some "double"
    · simp only [quoteStep, if_neg h1, if_pos h2, pyReplace_singleton, List.map_map]
      apply List.map_congr_left
      intro x _
      exact swapChar_swapChar _ _ (by decide) x
    · simp only [quoteStep, if_neg h1, if_neg h2]

theorem quoteStep_indentStep_comm (t : StyleTokens) (c : List Char) :
    quoteStep t (indentStep t c) = indentStep t (quoteStep t c) := by
  by_cases h1 : t.quotes = some "single"
  · simp only [quoteStep, if_pos h1, pyReplace_singleton]
    exact (indentStep_map t (swapChar '"' '\'')
      (swapChar_eq_iff _ _ _ (by decide) (by decide))
      (swapChar_eq_iff _ _ _ (by decide) (by decide))
      (swapChar_fixes _ _ _ (by decide)) c).symm
  · by_cases h2 : t.quotes = some "double"
    · simp only [quoteStep, if_neg h1, if_pos h2, pyReplace_singleton]
      exact (indentStep_map t (swapChar '\'' '"')
        (swapChar_eq_iff _ _ _ (by decide) (by decide))
        (swapChar_eq_iff _ _ _ (by decide) (by decide))
        (swapChar_fixes _ _ _ (by decide)) c).symm
    · simp only [quoteStep, if_neg h1, if_neg h2]

/-! ### Semicolon-regex characterization lemmas -/

theorem wsNl_none_iff (l : List Char) :
    wsNl l = none ↔ (l.takeWhile isPyWs).contains '\n' = false := by
  induction l with
  | nil => simp [wsNl]
  | cons c rest ih =>
    by_cases hc : c = '\n'
    · subst hc
      simp [wsNl, List.takeWhile_cons, (by decide : isPyWs '\n' = true)]
    · by_cases hws : isPyWs c
      · have hnc : ('\n' == c) = false := beq_eq_false_iff_ne.mpr (Ne.symm hc)
        simp only [wsNl, if_neg hc, if_pos hws, List.takeWhile_cons, hws, if_true]
        rw [ih, List.contains_cons, hnc]
        simp
      · simp only [wsNl, if_neg hc, if_neg hws, List.takeWhile_cons]
        simp [hws]

theorem wsNl_some_iff (l : List Char) : ∀ r : List Char,
    wsNl l = some r ↔
      ∃ w : List Char, w.all isPyWs = true ∧ l = w ++ '\n' :: r ∧
        (r.takeWhile isPyWs).contains '\n' = false := by
  induction l with
  | nil =>
    intro r
    constructor
    · intro h; simp [wsNl] at h
    · rintro ⟨w, _, hw, _⟩
      exact absurd hw (by simp)
  | cons c rest ih =>
    intro r
    constructor
    · intro h
      simp only [wsNl] at h
      split at h
      · rename_i hc
        cases hw : wsNl rest with
        | some r2 =>
          rw [hw] at h
          simp only [Option.getD_some, Option.some.injEq] at h
          obtain ⟨w, hall, heq, htail⟩ := (ih r2).mp hw
          refine ⟨'\n' :: w, ?_, ?_, ?_⟩
          · simp [hall, (by decide : isPyWs '\n' = true)]
          · rw [heq, hc, h]
            simp
          · rw [← h]
            exact htail
        | none =>
          rw [hw] at h
          simp only [Option.getD_none, Option.some.injEq] at h
          refine ⟨[], by simp, by rw [hc, h]; simp, ?_⟩
          rw [← h]
          exact (wsNl_none_iff rest).mp hw
      · split at h
        · rename_i hc hws
          obtain ⟨w, hall, heq, htail⟩ := (ih r).mp h
          refine ⟨c :: w, ?_, ?_, htail⟩
          · simp [hall, hws]
          · simp [heq]
        · exact absurd h (by simp)
    · rintro ⟨w, hall, heq, htail⟩
      cases w with
      | nil =>
        simp only [List.nil_append, List.cons.injEq] at heq
        obtain ⟨hc, hrest⟩ := heq
        subst hc
        subst hrest
        have hnone := (wsNl_none_iff _).mpr htail
        simp [wsNl, hnone]
      | cons x w2 =>
        simp only [List.cons_append, List.cons.injEq] at heq
        obtain ⟨hcx, hrest⟩ := heq
        simp only [List.all_cons, Bool.and_eq_true] at hall
        have hsub : wsNl rest = some r := (ih r).mpr ⟨w2, hall.2, hrest, htail⟩
        by_cases hx : c = '\n'
        · simp [wsNl, hx, hsub]
        · have hws : isPyWs c = true := hcx ▸ hall.1
          simp [wsNl, hx, hws, hsub]

theorem stripSemis_append_of_no_semi :
    ∀ a b : List Char, (∀ x ∈ a, x ≠ ';') → stripSemis (a ++ b) = a ++ stripSemis b := by
  intro a
  induction a with
  | nil => intro b _; simp
  | cons c a2 ih =>
    intro b h
    have hc : c ≠ ';' := h c (List.mem_cons_self c a2)
    have ha2 : ∀ x ∈ a2, x ≠ ';' := fun x hx => h x (List.mem_cons_of_mem c hx)
    simp only [List.cons_append, stripSemis, if_neg hc]
    rw [ih b ha2]

/-! ### Claim C7 — quote normalization -/

/-- C7: with `quotes = single` the StyleAdapter's quote-normalization step
replaces every `"` by `'`, and with `quotes = double` it replaces every `'`
by `"`; every character that is not the replaced quote is mapped to itself
(the transform is exactly a character-wise substitution). -/
theorem quote_normalization_charwise (sem : Bool) (ind : String) (sz : Nat)
    (c : List Char) :
    quoteStep ⟨some "single", sem, ind, sz⟩ c =
      c.map (fun x => if x = '"' then '\'' else x) ∧
    quoteStep ⟨some "double", sem, ind, sz⟩ c =
      c.map (fun x => if x = '\'' then '"' else x) := by
  constructor
  · rw [quoteStep, if_pos rfl, pyReplace_singleton]
    rfl
  · rw [quoteStep, if_neg (by simp), if_pos rfl, pyReplace_singleton]
    rfl

/-- The spec's concrete scenario: `quotes=single` on `say "hi"` yields
`say 'hi'`. -/
theorem quote_normalization_scenario :
    quoteStep ⟨some "single", true, "spaces", 2⟩ "say \"hi\"".toList =
      "say 'hi'".toList := by
  rw [quoteStep, if_pos rfl, pyReplace_singleton]
  decide

/-! ### Claim C4 — semicolon removal -/

/-- Literal-string model of the behaviour the claim describes: replace each
occurrence of the two-character substring `;\n` by `\n` and leave every
other character alone (`content.replace(";\n", "\n")`). -/
def claimSemiRemoval (c : List Char) : List Char :=
  pyReplace c [';', '\n'] ['\n']

/-- C4 counterexample: on the content `"; \n"` (semicolon, space, newline)
the code's regex `;\s*\n` also consumes the space, producing `"\n"`,
whereas the claim (remove exactly the semicolons immediately preceding a
newline, all whitespace surviving) leaves `"; \n"` unchanged. -/
theorem semicolon_strip_counterexample :
    semiStep ⟨none, false, "spaces", 2⟩ [';', ' ', '\n'] = ['\n'] ∧
    claimSemiRemoval [';', ' ', '\n'] = [';', ' ', '\n'] ∧
    ([';', ' ', '\n'] : List Char) ≠ ['\n'] := by
  refine ⟨?_, ?_, by simp⟩
  · simp [semiStep, stripSemis, wsNl, isPyWs]
  · rw [claimSemiRemoval, pyReplace, dif_neg (by simp)]
    simp [pyReplaceAux, List.isPrefixOf]

/-- C4 (amended): with `semicolons = false` the StyleAdapter performs the
rewrite `re.sub(r';\s*\n', '\n', content)`: scanning left to right, each
semicolon followed by a (possibly empty) whitespace run ending in a newline
is replaced — together with that whitespace run, up to and including its
last newline — by a single newline; a semicolon not followed by
whitespace-then-newline, and all characters outside such matches, are
unchanged. -/
theorem semicolon_strip_exact :
    (∀ (t : StyleTokens) (c : List Char), t.semicolons = false →
        semiStep t c = stripSemis c) ∧
    (∀ l r : List Char, wsNl l = some r ↔
        ∃ w : List Char, w.all isPyWs = true ∧ l = w ++ '\n' :: r ∧
          (r.takeWhile isPyWs).contains '\n' = false) ∧
    (∀ a b : List Char, (∀ x ∈ a, x ≠ ';') →
        stripSemis (a ++ b) = a ++ stripSemis b) ∧
    (∀ rest r : List Char, wsNl rest = some r →
        stripSemis (';' :: rest) = '\n' :: stripSemis r) ∧
    (∀ rest : List Char, wsNl rest = none →
        stripSemis (';' :: rest) = ';' :: stripSemis rest) := by
  refine ⟨?_, wsNl_some_iff, stripSemis_append_of_no_semi, ?_, ?_⟩
  · intro t c hf
    rw [semiStep, hf]
    rfl
  · intro rest r h
    rw [stripSemis]
    split
    · split
      · rename_i rest2 h2
        rw [h] at h2
        cases h2
        rfl
      · rename_i h2
        rw [h] at h2
        cases h2
    · rename_i h2
      exact absurd rfl h2
  · intro rest h
    rw [stripSemis]
    split
    · split
      · rename_i rest2 h2
        rw [h] at h2
        cases h2
      · rfl
    · rename_i h2
      exact absurd rfl h2

/-- Witness for `semicolon_strip_exact` at concrete inputs. -/
theorem semicolon_strip_exact_witness :
    semiStep ⟨none, false, "spaces", 2⟩ [';', '\n'] = stripSemis [';', '\n'] ∧
    wsNl [' ', '\n', ' '] = some [' '] ∧
    stripSemis (['a'] ++ [';', '\n']) = ['a'] ++ stripSemis [';', '\n'] ∧
    stripSemis (';' :: [' ', '\n', ' ']) = '\n' :: stripSemis [' '] ∧
    stripSemis (';' :: ['x']) = ';' :: stripSemis ['x'] :=
  ⟨semicolon_strip_exact.1 ⟨none, false, "spaces", 2⟩ [';', '\n'] rfl,
   (semicolon_strip_exact.2.1 [' ', '\n', ' '] [' ']).mpr
     ⟨[' '], by decide, by decide, by decide⟩,
   semicolon_strip_exact.2.2.1 ['a'] [';', '\n'] (by decide),
   semicolon_strip_exact.2.2.2.1 [' ', '\n', ' '] [' '] (by decide),
   semicolon_strip_exact.2.2.2.2 ['x'] (by decide)⟩

/-! ### Claim C3 — StyleAdapter idempotence -/

/-- C3 counterexample: with `semicolons = false` the transform is not
idempotent: on `";;\n"` one application yields `";\n"`, a second yields
`"\n"` (the regex pass is not self-stable). -/
theorem style_adapter_idem_counterexample :
    styleTransform ⟨none, false, "spaces", 2⟩
        (styleTransform ⟨none, false, "spaces", 2⟩ [';', ';', '\n']) ≠
      styleTransform ⟨none, false, "spaces", 2⟩ [';', ';', '\n'] := by
  have h1 : styleTransform ⟨none, false, "spaces", 2⟩ [';', ';', '\n'] = [';', '\n'] := by
    simp [styleTransform, quoteStep, semiStep, indentStep, stripSemis, wsNl, isPyWs]
  have h2 : styleTransform ⟨none, false, "spaces", 2⟩ [';', '\n'] = ['\n'] := by
    simp [styleTransform, quoteStep, semiStep, indentStep, stripSemis, wsNl, isPyWs]
  rw [h1, h2]
  simp

/-- C3 (amended): the StyleAdapter transform is idempotent for every token
configuration with `semicolons = true` and a positive indent size (the
quote-substitution and space-to-tab passes are self-stable); with
`semicolons = false` the semicolon-regex pass breaks idempotence. -/
theorem style_adapter_idem (t : StyleTokens) (c : List Char)
    (hsem : t.semicolons = true) (hsz : 0 < t.indent_size) :
    styleTransform t (styleTransform t c) = styleTransform t c := by
  unfold styleTransform
  have hid : ∀ x : List Char, semiStep t x = x := by
    intro x
    rw [semiStep, hsem]
    rfl
  rw [hid, hid, quoteStep_indentStep_comm, quoteStep_idem, indentStep_idem t hsz]

/-- Witness for `style_adapter_idem`. -/
theorem style_adapter_idem_witness :
    styleTransform ⟨some "single", true, "tabs", 2⟩
        (styleTransform ⟨some "single", true, "tabs", 2⟩ "  x = \"a\";".toList) =
      styleTransform ⟨some "single", true, "tabs", 2⟩ "  x = \"a\";".toList :=
  style_adapter_idem ⟨some "single", true, "tabs", 2⟩ _ rfl (by decide)

/-! ### PatchEngine (`utils/json_patch.py`)

`validate_patch_path`, `validate_patch_operations`, `apply_patch` and
`create_patch_diff`.  The `fastjsonpatch` library the module imports is not
part of the repository; its patch application and diff generation are
modelled from the spec (§4.3). -/

/-- The module-level `ALLOWED_PATHS` set (iterated as a list). -/
def ALLOWED_PATHS : List String :=
  ["/title", "/steps/*", "/files/*/content", "/tests/*", "/risks/*", "/prBody"]

/-- The prefix of an allow-list entry before its first `*`; the code
computes it as `allowed_path.replace("*", ".*").split(".*")[0]`. -/
def starPre (a : String) : List Char := a.toList.takeWhile (· ≠ '*')

/-- `validate_patch_path`: exact membership in `ALLOWED_PATHS`, else for
each entry containing `*` a `startswith` test against the entry's prefix
before the wildcard. -/
def validate_patch_path (path : String) : Bool :=
  ALLOWED_PATHS.contains path ||
    ALLOWED_PATHS.any (fun a =>
      a.toList.contains '*' && (starPre a).isPrefixOf path.toList)

/-- One RFC6902 operation as received in a request body (a JSON dict;
absent fields are `none`).  `fromPath` embeds the `"from"` member. -/
structure PatchOp where
  op : Option String := none
  path : Option String := none
  fromPath : Option String := none
  value : Option Json := none

/-- `operation.get("op") in ["add", "remove", "replace", "move", "copy",
"test"]` (a missing op is `None`, which is not in the list). -/
def validOpName : Option String → Bool
  | some s =>
    s == "add" || s == "remove" || s == "replace" ||
      s == "move" || s == "copy" || s == "test"
  | none => false

/-- The per-operation checks of `validate_patch_operations`: the `path`
field must be present, its value allowed, and the `op` recognised. -/
def validateOp (o : PatchOp) : Bool :=
  match o.path with
  | none => false
  | some p => validate_patch_path p && validOpName o.op

/-- `validate_patch_operations`: every operation passes `validateOp`
(the Python loop returns `False` at the first offender). -/
def validate_patch_operations (patch : List PatchOp) : Bool :=
  patch.all validateOp

/-! #### JSON Pointer (RFC6901) parsing and rendering.

Modelled from the spec: `fastjsonpatch` is not in the repository; §4.3
describes pointers as `/`-separated reference tokens with `~1` → `/` and
`~0` → `~` unescaped. -/

/-- Unescape one reference token (`~1` → `/`, `~0` → `~`). -/
def unescapeToken : List Char → List Char
  | [] => []
  | [c] => [c]
  | c :: d :: rest =>
    if c = '~' ∧ d = '0' then '~' :: unescapeToken rest
    else if c = '~' ∧ d = '1' then '/' :: unescapeToken rest
    else c :: unescapeToken (d :: rest)

/-- Escape one reference token (`~` → `~0`, `/` → `~1`). -/
def escapeToken : List Char → List Char
  | [] => []
  | c :: rest =>
    if c = '~' then '~' :: '0' :: escapeToken rest
    else if c = '/' then '~' :: '1' :: escapeToken rest
    else c :: escapeToken rest

/-- Split on `/` (like `str.split('/')`). -/
def splitSlash : List Char → List (List Char)
  | [] => [[]]
  | c :: rest =>
    if c = '/' then [] :: splitSlash rest
    else
      match splitSlash rest with
      | [] => [[c]]
      | l :: ls => (c :: l) :: ls

/-- Modelled from the spec: parse a JSON Pointer into reference tokens.
The empty pointer denotes the whole document; a non-empty pointer must
start with `/`. -/
def parsePointer (p : String) : Except String (List String) :=
  match p.toList with
  | [] => .ok []
  | '/' :: rest => .ok ((splitSlash rest).map (fun t => String.mk (unescapeToken t)))
  | _ => .error "pointer must start with /"

/-- Render reference tokens back into a JSON Pointer string. -/
def renderPointer (ts : List String) : String :=
  String.mk (ts.flatMap (fun t => '/' :: escapeToken t.toList))

/-- Decimal digits of a natural number, most significant first,
accumulated onto `acc` (the fuel argument strictly bounds the number). -/
def natDigitsCore : Nat → Nat → List Char → List Char
  | 0, _, acc => acc
  | fuel + 1, n, acc =>
    if n < 10 then Char.ofNat (48 + n) :: acc
    else natDigitsCore fuel (n / 10) (Char.ofNat (48 + n % 10) :: acc)

/-- Decimal digits of a natural number (`str(i)` for an array index). -/
def natDigits (n : Nat) : List Char := natDigitsCore (n + 1) n []

/-- `str(i)` for a natural array index. -/
def natStr (n : Nat) : String := String.mk (natDigits n)

def digitsToNatAux (acc : Nat) : List Char → Option Nat
  | [] => some acc
  | c :: rest =>
    if c.isDigit then digitsToNatAux (acc * 10 + (c.toNat - 48)) rest else none

/-- Interpret a reference token as an array index: non-empty and all
decimal digits. -/
def tokenToIndex (t : String) : Option Nat :=
  if t.toList = [] then none else digitsToNatAux 0 t.toList

/-! #### Patch application (modelled from the spec, §4.3) -/

/-- Python dict assignment `d[k] = v`: overwrite the first occurrence in
place, else append. -/
def setKey (k : String) (v : Json) : List (String × Json) → List (String × Json)
  | [] => [(k, v)]
  | (k2, w) :: rest => if k2 = k then (k2, v) :: rest else (k2, w) :: setKey k v rest

/-- Insert into a list at an index (`list.insert(i, v)` with `i ≤ len`). -/
def insertAt (v : Json) : Nat → List Json → List Json
  | 0, xs => v :: xs
  | _ + 1, [] => [v]
  | i + 1, x :: xs => x :: insertAt v i xs

/-- `getAt doc tokens`: traverse the document along the tokens (mapping
member lookup, sequence indexing); any traversal failure is an error. -/
def getAt : Json → List String → Except String Json
  | doc, [] => .ok doc
  | .obj kvs, t :: ts =>
    match lookupKey t kvs with
    | some v => getAt v ts
    | none => .error "member not found"
  | .arr xs, t :: ts =>
    match tokenToIndex t with
    | some i =>
      if h : i < xs.length then getAt (xs.get ⟨i, h⟩) ts
      else .error "index out of range"
    | none => .error "invalid array index"
  | _, _ :: _ => .error "cannot traverse non-container"

mutual

/-- `replace` semantics: the empty pointer replaces the whole document; a
final mapping token overwrites an existing key; a final sequence index
overwrites in range; intermediate tokens traverse. -/
def replaceAt : Json → List String → Json → Except String Json
  | _, [], v => .ok v
  | .obj kvs, t :: ts, v => (replaceInObj kvs t ts v).map Json.obj
  | .arr xs, t :: ts, v =>
    match tokenToIndex t with
    | some i => (replaceInArr xs i ts v).map Json.arr
    | none => .error "invalid array index"
  | _, _ :: _, _ => .error "cannot traverse non-container"

def replaceInObj :
    List (String × Json) → String → List String → Json →
      Except String (List (String × Json))
  | [], _, _, _ => .error "member not found"
  | (k, w) :: rest, t, ts, v =>
    if k = t then (replaceAt w ts v).map (fun w2 => (k, w2) :: rest)
    else (replaceInObj rest t ts v).map (fun r => (k, w) :: r)

def replaceInArr :
    List Json → Nat → List String → Json → Except String (List Json)
  | [], _, _, _ => .error "index out of range"
  | x :: xs, 0, ts, v => (replaceAt x ts v).map (fun x2 => x2 :: xs)
  | x :: xs, i + 1, ts, v => (replaceInArr xs i ts v).map (fun r => x :: r)

end

mutual

/-- `add` semantics: the empty pointer replaces the whole document; a
final mapping token sets the key (creating it if absent); on a sequence,
`-` appends and a numeric index `i ≤ len` inserts at `i`; intermediate
tokens traverse existing structure. -/
def addAt : Json → List String → Json → Except String Json
  | _, [], v => .ok v
  | .obj kvs, [t], v => .ok (Json.obj (setKey t v kvs))
  | .arr xs, [t], v =>
    if t = "-" then .ok (Json.arr (xs ++ [v]))
    else
      match tokenToIndex t with
      | some i =>
        if i ≤ xs.length then .ok (Json.arr (insertAt v i xs))
        else .error "index out of range"
      | none => .error "invalid array index"
  | .obj kvs, t :: ts, v => (addInObj kvs t ts v).map Json.obj
  | .arr xs, t :: ts, v =>
    match tokenToIndex t with
    | some i => (addInArr xs i ts v).map Json.arr
    | none => .error "invalid array index"
  | _, _ :: _, _ => .error "cannot traverse non-container"

def addInObj :
    List (String × Json) → String → List String → Json →
      Except String (List (String × Json))
  | [], _, _, _ => .error "member not found"
  | (k, w) :: rest, t, ts, v =>
    if k = t then (addAt w ts v).map (fun w2 => (k, w2) :: rest)
    else (addInObj rest t ts v).map (fun r => (k, w) :: r)

def addInArr :
    List Json → Nat → List String → Json → Except String (List Json)
  | [], _, _, _ => .error "index out of range"
  | x :: xs, 0, ts, v => (addAt x ts v).map (fun x2 => x2 :: xs)
  | x :: xs, i + 1, ts, v => (addInArr xs i ts v).map (fun r => x :: r)

end

/-- Delete the first occurrence of a key from a mapping, failing when the
key is absent. -/
def delKey (t : String) : List (String × Json) → Except String (List (String × Json))
  | [] => .error "member not found"
  | (k, w) :: rest =>
    if k = t then .ok rest else (delKey t rest).map (fun r => (k, w) :: r)

/-- Delete the element at an index from a sequence, failing out of range. -/
def delIdx : List Json → Nat → Except String (List Json)
  | [], _ => .error "index out of range"
  | _ :: xs, 0 => .ok xs
  | x :: xs, i + 1 => (delIdx xs i).map (fun r => x :: r)

mutual

/-- `remove` semantics: the root cannot be removed; a final mapping token
deletes an existing key; a final in-range sequence index deletes the
element; intermediate tokens traverse. -/
def removeAt : Json → List String → Except String Json
  | _, [] => .error "cannot remove root document"
  | .obj kvs, [t] => (delKey t kvs).map Json.obj
  | .arr xs, [t] =>
    match tokenToIndex t with
    | some i => (delIdx xs i).map Json.arr
    | none => .error "invalid array index"
  | .obj kvs, t :: ts => (removeInObj kvs t ts).map Json.obj
  | .arr xs, t :: ts =>
    match tokenToIndex t with
    | some i => (removeInArr xs i ts).map Json.arr
    | none => .error "invalid array index"
  | _, _ :: _ => .error "cannot traverse non-container"

def removeInObj :
    List (String × Json) → String → List String →
      Except String (List (String × Json))
  | [], _, _ => .error "member not found"
  | (k, w) :: rest, t, ts =>
    if k = t then (removeAt w ts).map (fun w2 => (k, w2) :: rest)
    else (removeInObj rest t ts).map (fun r => (k, w) :: r)

def removeInArr : List Json → Nat → List String → Except String (List Json)
  | [], _, _ => .error "index out of range"
  | x :: xs, 0, ts => (removeAt x ts).map (fun x2 => x2 :: xs)
  | x :: xs, i + 1, ts => (removeInArr xs i ts).map (fun r => x :: r)

end

/-- The `value` member of an operation, required by `add`/`replace`/`test`. -/
def getOpValue (o : PatchOp) : Except String Json :=
  match o.value with
  | some v => .ok v
  | none => .error "operation missing value"

/-- Modelled from the spec: apply one validated RFC6902 operation to a
document (`fastjsonpatch` is not in the repository; semantics follow
§4.3 and RFC6902 for the optional `move`/`copy`/`test`). -/
def applyOp (doc : Json) (o : PatchOp) : Except String Json :=
  match o.path with
  | none => .error "operation missing path"
  | some p => do
    let ts ← parsePointer p
    match o.op with
    | some "add" => do addAt doc ts (← getOpValue o)
    | some "replace" => do replaceAt doc ts (← getOpValue o)
    | some "remove" => removeAt doc ts
    | some "test" => do
      let v ← getOpValue o
      let w ← getAt doc ts
      if w = v then .ok doc else .error "test failed"
    | some "move" =>
      match o.fromPath with
      | none => .error "operation missing from"
      | some fp => do
        let fts ← parsePointer fp
        let v ← getAt doc fts
        let doc2 ← removeAt doc fts
        addAt doc2 ts v
    | some "copy" =>
      match o.fromPath with
      | none => .error "operation missing from"
      | some fp => do
        let fts ← parsePointer fp
        let v ← getAt doc fts
        addAt doc ts v
    | _ => .error "unsupported operation"

/-- Modelled from the spec: apply the operations in order to a working
copy of the document; the first failure aborts the whole batch (the
partially patched copy is discarded, all-or-nothing). -/
def applySeq (doc : Json) (patch : List PatchOp) : Except String Json :=
  patch.foldlM applyOp doc

/-- `apply_patch` (`json_patch.py` lines 58-72): validate the batch, then
hand it to the library; any error propagates to the caller as a raised
exception (embedded as `Except.error`). -/
def apply_patch (plan_json : Json) (patch : List PatchOp) : Except String Json :=
  if validate_patch_operations patch then applySeq plan_json patch
  else .error "Invalid patch operations"

/-! ### The `/plan/patch` route (`api/routes/plan_patch.py`)

The stored plans are embedded as an association list `planId → plan_json`
(the route reads `plan["plan_json"]` from the fetched row and writes the
patched document back with `update_plan`). -/

/-- The request body of `POST /plan/patch`. -/
structure PlanPatchRequest where
  planId : String
  patch : List PatchOp
  messageId : Option String := none

/-- `apply_plan_patch`: validate, load the plan, apply the patch, persist.
Returns the (possibly updated) store and the HTTP outcome: `.ok` carries
the updated plan JSON of the success response, `.error` the failure
detail.  On every failure path the store is returned unchanged. -/
def apply_plan_patch (store : List (String × Json)) (req : PlanPatchRequest) :
    List (String × Json) × Except String Json :=
  if validate_patch_operations req.patch then
    match lookupKey req.planId store with
    | none => (store, .error "Plan not found")
    | some doc =>
      match apply_patch doc req.patch with
      | .error _ => (store, .error "Internal server error")
      | .ok updated => (setKey req.planId updated store, .ok updated)
  else (store, .error "Invalid patch operations")

/-! ### Claim C2 — path allow-list -/

/-- Segment matcher following the claim's words: a wildcard segment `*`
stands for exactly one reference token. -/
def segMatchOneToken : List (List Char) → List (List Char) → Bool
  | [], [] => true
  | e :: es, s :: ss => (e = ['*'] || e = s) && segMatchOneToken es ss
  | _, _ => false

/-- The allow predicate as the claim states it: `p` equals a literal entry
or matches a wildcard entry with `*` standing for exactly one token. -/
def claimOneTokenAllowed (p : String) : Bool :=
  ALLOWED_PATHS.any (fun a => segMatchOneToken (splitSlash a.toList) (splitSlash p.toList))

/-- C2 counterexample: the code allows `/files/3/path` (its wildcard check
is a prefix test on `/files/`), while the claim's exactly-one-token
wildcard reading rejects it. -/
theorem path_allowlist_counterexample :
    validate_patch_path "/files/3/path" = true ∧
      claimOneTokenAllowed "/files/3/path" = false := by
  constructor
  · rfl
  · rfl

/-- C2 (amended): `validate_patch_path p` returns `True` iff `p` exactly
equals one of the allow-list entries or starts with the prefix of some
wildcard entry before its first `*` — equivalently, iff `p` is `/title` or
`/prBody`, or `p` starts with one of `/steps/`, `/files/`, `/tests/`,
`/risks/` (so `/files/3/path` and `/steps/0/extra` are also allowed); the
empty path and `/unknown` are rejected. -/
theorem path_allowlist_characterization (p : String) :
    validate_patch_path p = true ↔
      (p = "/title" ∨ p = "/prBody" ∨
        "/steps/".toList.isPrefixOf p.toList = true ∨
        "/files/".toList.isPrefixOf p.toList = true ∨
        "/tests/".toList.isPrefixOf p.toList = true ∨
        "/risks/".toList.isPrefixOf p.toList = true) := by
  have e1 : starPre "/steps/*" = "/steps/".toList := by decide
  have e2 : starPre "/files/*/content" = "/files/".toList := by decide
  have e3 : starPre "/tests/*" = "/tests/".toList := by decide
  have e4 : starPre "/risks/*" = "/risks/".toList := by decide
  simp only [validate_patch_path, ALLOWED_PATHS, List.contains_cons,
    List.contains_nil, List.any_cons, List.any_nil, e1, e2, e3, e4,
    (by decide : ("/title" : String).toList.contains '*' = false),
    (by decide : ("/prBody" : String).toList.contains '*' = false),
    (by decide : ("/steps/*" : String).toList.contains '*' = true),
    (by decide : ("/files/*/content" : String).toList.contains '*' = true),
    (by decide : ("/tests/*" : String).toList.contains '*' = true),
    (by decide : ("/risks/*" : String).toList.contains '*' = true),
    Bool.true_and, Bool.false_and, Bool.or_false, Bool.false_or,
    Bool.or_eq_true, beq_iff_eq]
  have hw1 : ("/steps/" : String).toList.isPrefixOf "/steps/*".toList = true := by decide
  have hw2 : ("/files/" : String).toList.isPrefixOf "/files/*/content".toList = true := by
    decide
  have hw3 : ("/tests/" : String).toList.isPrefixOf "/tests/*".toList = true := by decide
  have hw4 : ("/risks/" : String).toList.isPrefixOf "/risks/*".toList = true := by decide
  constructor
  · rintro (⟨rfl | rfl | rfl | rfl | rfl | rfl⟩ | h | h | h | h) <;> tauto
  · rintro (h | h | h | h | h | h) <;> tauto

/-! ### Claim C10 — validation reads only `op` and `path` -/

theorem validateOp_congr (o1 o2 : PatchOp) (hop : o1.op = o2.op)
    (hpath : o1.path = o2.path) : validateOp o1 = validateOp o2 := by
  unfold validateOp
  rw [hpath, hop]

/-- C10: batch validation depends only on each operation's `op` and `path`
fields; two batches agreeing pointwise on those fields (but possibly
differing in `from`, `value`, or anything else) validate identically — in
particular a `move`/`copy` whose source is outside the allow-list passes
whenever its `path` is allowed. -/
theorem validation_reads_only_op_and_path (p1 p2 : List PatchOp)
    (h : List.Forall₂ (fun o1 o2 => o1.op = o2.op ∧ o1.path = o2.path) p1 p2) :
    validate_patch_operations p1 = validate_patch_operations p2 := by
  induction h with
  | nil => rfl
  | cons h1 _ ih =>
    simp only [validate_patch_operations, List.all_cons] at *
    rw [validateOp_congr _ _ h1.1 h1.2, ih]

/-- Witness for `validation_reads_only_op_and_path`: a `move` into
`/title` whose `from` is the disallowed `/secret` validates exactly like
one whose `from` is allowed — and both pass. -/
theorem validation_reads_only_op_and_path_witness :
    validate_patch_operations
        [{ op := some "move", path := some "/title", fromPath := some "/secret" }] =
      validate_patch_operations
        [{ op := some "move", path := some "/title", fromPath := some "/title" }] ∧
    validate_patch_operations
        [{ op := some "move", path := some "/title", fromPath := some "/secret" }] = true :=
  ⟨validation_reads_only_op_and_path _ _
      (List.Forall₂.cons ⟨rfl, rfl⟩ List.Forall₂.nil),
   rfl⟩

/-! ### Claim C8 — invalid batches are rejected before any application -/

/-- C8: if some operation of the batch has no `path`, a disallowed `path`,
or an unrecognised `op`, then validation fails, `apply_patch` raises
before applying any operation (for every document), and the route handler
leaves the stored plans unchanged. -/
theorem invalid_batch_rejected (store : List (String × Json))
    (req : PlanPatchRequest)
    (h : ∃ o ∈ req.patch,
        o.path = none ∨
        (∃ p, o.path = some p ∧ validate_patch_path p = false) ∨
        validOpName o.op = false) :
    validate_patch_operations req.patch = false ∧
    (∀ doc : Json, apply_patch doc req.patch = .error "Invalid patch operations") ∧
    apply_plan_patch store req = (store, .error "Invalid patch operations") := by
  obtain ⟨o, hmem, hbad⟩ := h
  have hop : validateOp o = false := by
    rcases hbad with hnone | ⟨p, hp, hv⟩ | hopn
    · rw [validateOp, hnone]
    · rw [validateOp, hp]
      simp [hv]
    · rw [validateOp]
      cases hpath : o.path with
      | none => rfl
      | some p => simp [hopn]
  have hall : validate_patch_operations req.patch = false := by
    rw [validate_patch_operations]
    by_contra hcon
    have htrue : req.patch.all validateOp = true := by
      cases hx : req.patch.all validateOp
      · exact absurd hx hcon
      · rfl
    have := List.all_eq_true.mp htrue o hmem
    rw [hop] at this
    cases this
  refine ⟨hall, ?_, ?_⟩
  · intro doc
    rw [apply_patch, if_neg (by rw [hall]; exact Bool.false_ne_true)]
  · rw [apply_plan_patch, if_neg (by rw [hall]; exact Bool.false_ne_true)]

/-- Witness for `invalid_batch_rejected`: a single `replace` aimed at the
disallowed `/unknown` path. -/
theorem invalid_batch_rejected_witness :
    validate_patch_operations
        [{ op := some "replace", path := some "/unknown", value := some (Json.str "x") }] = false ∧
    (∀ doc : Json,
      apply_patch doc
          [{ op := some "replace", path := some "/unknown", value := some (Json.str "x") }] =
        .error "Invalid patch operations") ∧
    apply_plan_patch [("p1", Json.obj [("title", Json.str "T")])]
        ⟨"p1", [{ op := some "replace", path := some "/unknown", value := some (Json.str "x") }], none⟩ =
      ([("p1", Json.obj [("title", Json.str "T")])], .error "Invalid patch operations") :=
  invalid_batch_rejected [("p1", Json.obj [("title", Json.str "T")])]
    ⟨"p1", [{ op := some "replace", path := some "/unknown", value := some (Json.str "x") }], none⟩
    ⟨{ op := some "replace", path := some "/unknown", value := some (Json.str "x") },
     List.mem_cons_self _ _, Or.inr (Or.inl ⟨"/unknown", rfl, rfl⟩)⟩

/-! ### Claim C1 — atomicity on traversal failure -/

/-- C1: for a batch that passes operation validation but whose sequential
application fails at some operation (missing key, index out of range,
non-traversable intermediate value), `apply_patch` raises, and the route
handler returns the store unchanged with an error response: no effect of
the earlier operations reaches the caller or the persisted document. -/
theorem patch_traversal_failure_atomic (store : List (String × Json))
    (req : PlanPatchRequest) (doc : Json) (e : String)
    (hval : validate_patch_operations req.patch = true)
    (hdoc : lookupKey req.planId store = some doc)
    (hfail : applySeq doc req.patch = .error e) :
    apply_patch doc req.patch = .error e ∧
    apply_plan_patch store req = (store, .error "Internal server error") := by
  have hap : apply_patch doc req.patch = .error e := by
    rw [apply_patch, if_pos hval]
    exact hfail
  refine ⟨hap, ?_⟩
  rw [apply_plan_patch, if_pos hval, hdoc]
  simp [hap]

/-- Witness for `patch_traversal_failure_atomic`: operation 1 (`replace
/title`) succeeds, operation 2 (`remove /steps/5`) fails traversal (index
out of range on the empty `steps`); the stored document is unchanged. -/
theorem patch_traversal_failure_atomic_witness :
    apply_patch (Json.obj [("title", Json.str "T"), ("steps", Json.arr [])])
        [{ op := some "replace", path := some "/title", value := some (Json.str "T2") },
         { op := some "remove", path := some "/steps/5" }] =
      .error "index out of range" ∧
    apply_plan_patch [("p1", Json.obj [("title", Json.str "T"), ("steps", Json.arr [])])]
        ⟨"p1", [{ op := some "replace", path := some "/title", value := some (Json.str "T2") },
                { op := some "remove", path := some "/steps/5" }], none⟩ =
      ([("p1", Json.obj [("title", Json.str "T"), ("steps", Json.arr [])])],
        .error "Internal server error") :=
  patch_traversal_failure_atomic
    [("p1", Json.obj [("title", Json.str "T"), ("steps", Json.arr [])])]
    ⟨"p1", [{ op := some "replace", path := some "/title", value := some (Json.str "T2") },
            { op := some "remove", path := some "/steps/5" }], none⟩
    (Json.obj [("title", Json.str "T"), ("steps", Json.arr [])])
    "index out of range" rfl rfl rfl

/-! ### Claim C9 — diff/patch round trip

`create_patch_diff` wraps `fastjsonpatch.make_patch`, which is not in the
repository.  Modelled from the spec (§4.3 diff generation): a structural
diff that emits `replace` operations at the deepest differing locations
(recursing through mappings with equal key sequences and equal-length
sequences) and replaces the whole subdocument otherwise. -/

/-- Keys of a mapping are pairwise distinct (Python dicts cannot hold
duplicate keys; documents decoded from JSON bodies satisfy this). -/
def keyNodup : List (String × Json) → Bool
  | [] => true
  | (k, _) :: rest => !(rest.any (fun kv => kv.1 == k)) && keyNodup rest

mutual

/-- Well-formedness of an embedded document: every mapping that occurs in
it has pairwise-distinct keys. -/
def wfJ : Json → Bool
  | .arr xs => wfL xs
  | .obj kvs => keyNodup kvs && wfO kvs
  | _ => true

def wfL : List Json → Bool
  | [] => true
  | x :: xs => wfJ x && wfL xs

def wfO : List (String × Json) → Bool
  | [] => true
  | (_, v) :: rest => wfJ v && wfO rest

end

mutual

/-- Modelled from the spec: token-level structural diff.  Equal values
need no operations; mappings with the same key sequence and sequences of
the same length are diffed member-wise; any other difference is a whole
`replace` of the location. -/
def diffT : Json → Json → List (List String × Json)
  | a, b =>
    if a = b then []
    else
      match a, b with
      | .obj ka, .obj kb =>
        if ka.map Prod.fst = kb.map Prod.fst then diffKVs ka kb
        else [([], .obj kb)]
      | .arr xa, .arr xb =>
        if xa.length = xb.length then diffArr 0 xa xb
        else [([], .arr xb)]
      | _, b2 => [([], b2)]

def diffKVs : List (String × Json) → List (String × Json) → List (List String × Json)
  | (k, va) :: ka, (_, vb) :: kb =>
    (diffT va vb).map (fun tv => (k :: tv.1, tv.2)) ++ diffKVs ka kb
  | _, _ => []

def diffArr (i : Nat) : List Json → List Json → List (List String × Json)
  | x :: xa, y :: xb =>
    (diffT x y).map (fun tv => (natStr i :: tv.1, tv.2)) ++ diffArr (i + 1) xa xb
  | _, _ => []

end

/-- `create_patch_diff` (`json_patch.py` lines 75-83): produce the patch
transforming `original` into `modified` (the library call
`fastjsonpatch.make_patch(original, modified).patch`, modelled from the
spec as the structural diff above rendered into operations). -/
def create_patch_diff (original modified : Json) : List PatchOp :=
  (diffT original modified).map (fun tv =>
    { op := some "replace", path := some (renderPointer tv.1), value := some tv.2 })

/-- Sequential application of token-level replace operations. -/
def applyRepls : Json → List (List String × Json) → Except String Json
  | doc, [] => .ok doc
  | doc, (ts, v) :: rest =>
    match replaceAt doc ts v with
    | .ok d2 => applyRepls d2 rest
    | .error e => .error e

/-! #### Pointer render/parse round trip -/

theorem escapeToken_eq_nil_iff (t : List Char) : escapeToken t = [] ↔ t = [] := by
  cases t with
  | nil => simp [escapeToken]
  | cons c rest =>
    simp only [escapeToken]
    constructor
    · intro h
      split at h <;> first | exact absurd h (by simp) | skip
      split at h <;> exact absurd h (by simp)
    · intro h
      cases h

theorem unescape_escape (t : List Char) : unescapeToken (escapeToken t) = t := by
  induction t with
  | nil => rfl
  | cons c rest ih =>
    by_cases h1 : c = '~'
    · subst h1
      rw [escapeToken, if_pos rfl]
      rw [unescapeToken, if_pos ⟨rfl, rfl⟩, ih]
    · by_cases h2 : c = '/'
      · subst h2
        rw [escapeToken, if_neg (by decide), if_pos rfl]
        rw [unescapeToken, if_neg (by decide), if_pos ⟨rfl, rfl⟩, ih]
      · rw [escapeToken, if_neg h1, if_neg h2]
        cases he : escapeToken rest with
        | nil =>
          have : rest = [] := (escapeToken_eq_nil_iff rest).mp he
          subst this
          rfl
        | cons d es =>
          rw [he] at ih
          rw [unescapeToken, if_neg (by intro hc; exact h1 hc.1),
            if_neg (by intro hc; exact h1 hc.1), ih]

theorem no_slash_escape (t : List Char) : '/' ∉ escapeToken t := by
  induction t with
  | nil => simp [escapeToken]
  | cons c rest ih =>
    by_cases h1 : c = '~'
    · subst h1
      rw [escapeToken, if_pos rfl]
      intro hmem
      rcases List.mem_cons.mp hmem with h | h
      · exact absurd h (by decide)
      rcases List.mem_cons.mp h with h | h
      · exact absurd h (by decide)
      · exact ih h
    · by_cases h2 : c = '/'
      · subst h2
        rw [escapeToken, if_neg (by decide), if_pos rfl]
        intro hmem
        rcases List.mem_cons.mp hmem with h | h
        · exact absurd h (by decide)
        rcases List.mem_cons.mp h with h | h
        · exact absurd h (by decide)
        · exact ih h
      · rw [escapeToken, if_neg h1, if_neg h2]
        intro hmem
        rcases List.mem_cons.mp hmem with h | h
        · exact h2 h.symm
        · exact ih h

theorem splitSlash_no_slash (l : List Char) (h : '/' ∉ l) : splitSlash l = [l] := by
  induction l with
  | nil => rfl
  | cons c rest ih =>
    have hc : c ≠ '/' := fun hc => h (hc ▸ List.mem_cons_self c rest)
    have hrest : '/' ∉ rest := fun hr => h (List.mem_cons_of_mem c hr)
    simp only [splitSlash, if_neg hc, ih hrest]

theorem splitSlash_append_slash (x rest : List Char) (h : '/' ∉ x) :
    splitSlash (x ++ '/' :: rest) = x :: splitSlash rest := by
  induction x with
  | nil => simp [splitSlash]
  | cons c x2 ih =>
    have hc : c ≠ '/' := fun hc => h (hc ▸ List.mem_cons_self c x2)
    have hx2 : '/' ∉ x2 := fun hr => h (List.mem_cons_of_mem c hr)
    have ih2 : splitSlash (x2.append ('/' :: rest)) = x2 :: splitSlash rest := ih hx2
    simp only [List.cons_append, splitSlash, if_neg hc, ih2]

theorem splitSlash_flat (t : String) (ts : List String) :
    splitSlash (escapeToken t.toList ++
        ts.flatMap (fun u => '/' :: escapeToken u.toList)) =
      escapeToken t.toList :: ts.map (fun u => escapeToken u.toList) := by
  induction ts generalizing t with
  | nil =>
    simp only [List.flatMap_nil, List.append_nil, List.map_nil]
    exact splitSlash_no_slash _ (no_slash_escape _)
  | cons u ts2 ih =>
    simp only [List.flatMap_cons, List.map_cons]
    rw [show escapeToken t.toList ++
          (('/' :: escapeToken u.toList) ++
            ts2.flatMap (fun v => '/' :: escapeToken v.toList)) =
        escapeToken t.toList ++
          '/' :: (escapeToken u.toList ++
            ts2.flatMap (fun v => '/' :: escapeToken v.toList)) by simp]
    rw [splitSlash_append_slash _ _ (no_slash_escape _), ih u]

theorem parse_render (ts : List String) : parsePointer (renderPointer ts) = .ok ts := by
  cases ts with
  | nil => rfl
  | cons t ts2 =>
    have htl : (renderPointer (t :: ts2)).toList =
        '/' :: (escapeToken t.toList ++
          ts2.flatMap (fun u => '/' :: escapeToken u.toList)) := by
      simp [renderPointer, String.toList]
    have hu : ∀ u : String, String.mk (unescapeToken (escapeToken u.toList)) = u := by
      intro u
      rw [unescape_escape]
      rfl
    rw [parsePointer, htl]
    simp only [splitSlash_flat t ts2, List.map_cons, List.map_map]
    simp only [Function.comp_def, hu, List.map_id, List.map_id']

/-! #### Array index tokens -/

theorem digitChar_spec (m : Nat) (hm : m < 10) :
    (Char.ofNat (48 + m)).isDigit = true ∧ (Char.ofNat (48 + m)).toNat - 48 = m := by
  interval_cases m <;> exact ⟨rfl, rfl⟩

theorem natDigitsCore_ne_nil (fuel n : Nat) (acc : List Char) (hf : 0 < fuel) :
    natDigitsCore fuel n acc ≠ [] := by
  induction fuel generalizing n acc with
  | zero => omega
  | succ f ih =>
    rw [natDigitsCore]
    split
    · simp
    · cases hf2 : f with
      | zero =>
        subst hf2
        rw [natDigitsCore]
        simp
      | succ f2 =>
        exact hf2 ▸ ih (n / 10) _ (by omega)

theorem natDigitsCore_val (fuel : Nat) :
    ∀ n acc, n < fuel →
      digitsToNatAux 0 (natDigitsCore fuel n acc) = digitsToNatAux n acc := by
  induction fuel with
  | zero => intro n acc h; omega
  | succ f ih =>
    intro n acc h
    rw [natDigitsCore]
    split
    · rename_i h10
      obtain ⟨hd, hv⟩ := digitChar_spec n h10
      rw [digitsToNatAux, if_pos hd, hv]
      norm_num
    · rename_i h10
      have hlt : n / 10 < f := by omega
      rw [ih (n / 10) _ hlt]
      obtain ⟨hd, hv⟩ := digitChar_spec (n % 10) (by omega)
      rw [digitsToNatAux, if_pos hd, hv]
      congr 1
      omega

theorem tokenToIndex_natStr (n : Nat) : tokenToIndex (natStr n) = some n := by
  have hne : natDigits n ≠ [] := natDigitsCore_ne_nil (n + 1) n [] (by omega)
  rw [tokenToIndex]
  have htl : (natStr n).toList = natDigits n := rfl
  rw [htl, if_neg hne, show natDigits n = natDigitsCore (n + 1) n [] from rfl,
    natDigitsCore_val (n + 1) n [] (by omega)]
  rfl

/-! #### Frame lemmas for replace application -/

theorem ex_map_map (x : Except String α) (f : α → β) (g : β → γ) :
    (x.map f).map g = x.map (fun a => g (f a)) := by
  cases x <;> rfl

theorem applyOp_replace (doc : Json) (ts : List String) (v : Json) :
    applyOp doc { op := some "replace", path := some (renderPointer ts), value := some v } =
      replaceAt doc ts v := by
  show parsePointer (renderPointer ts) >>= (fun ts2 =>
      getOpValue ({ op := some "replace", path := some (renderPointer ts), value := some v } : PatchOp) >>= (fun v2 => replaceAt doc ts2 v2)) =
    replaceAt doc ts v
  rw [parse_render ts]
  rfl

theorem applySeq_diffops (l : List (List String × Json)) : ∀ doc : Json,
    applySeq doc (l.map (fun tv =>
        ({ op := some "replace", path := some (renderPointer tv.1),
           value := some tv.2 } : PatchOp))) =
      applyRepls doc l := by
  induction l with
  | nil => intro doc; rfl
  | cons tv l2 ih =>
    intro doc
    obtain ⟨ts, v⟩ := tv
    show (applyOp doc _ >>= fun d2 =>
        List.foldlM applyOp d2 (l2.map _)) = _
    rw [applyOp_replace]
    rw [applyRepls]
    cases hr : replaceAt doc ts v with
    | ok d2 =>
      show List.foldlM applyOp d2 (l2.map _) = _
      exact ih d2
    | error e => rfl

theorem replaceInObj_frame (front : List (String × Json)) (k : String) (w : Json)
    (rest : List (String × Json)) (ts : List String) (v : Json)
    (hk : k ∉ front.map Prod.fst) :
    replaceInObj (front ++ (k, w) :: rest) k ts v =
      (replaceAt w ts v).map (fun w2 => front ++ (k, w2) :: rest) := by
  induction front with
  | nil =>
    simp only [List.nil_append, replaceInObj, eq_self_iff_true, if_true]
  | cons p front2 ih =>
    obtain ⟨k2, w2⟩ := p
    have hk2 : k2 ≠ k := by
      intro h
      exact hk (by simp [h])
    have hk3 : k ∉ front2.map Prod.fst := by
      intro h
      exact hk (by simp [h])
    have ih2 : replaceInObj (front2.append ((k, w) :: rest)) k ts v =
        (replaceAt w ts v).map (fun w2 => front2 ++ (k, w2) :: rest) := ih hk3
    simp only [List.cons_append, replaceInObj, if_neg hk2, ih2, ex_map_map]

theorem applyRepls_obj_frame (ops : List (List String × Json)) :
    ∀ (front : List (String × Json)) (k : String) (w : Json)
      (rest : List (String × Json)) (res : Json),
      k ∉ front.map Prod.fst →
      applyRepls w ops = .ok res →
      applyRepls (.obj (front ++ (k, w) :: rest))
          (ops.map (fun tv => (k :: tv.1, tv.2))) =
        .ok (.obj (front ++ (k, res) :: rest)) := by
  induction ops with
  | nil =>
    intro front k w rest res _ h
    rw [applyRepls] at h
    cases h
    rfl
  | cons tv ops2 ih =>
    intro front k w rest res hk h
    obtain ⟨ts1, v1⟩ := tv
    rw [applyRepls] at h
    cases hr : replaceAt w ts1 v1 with
    | error e =>
      rw [hr] at h
      cases h
    | ok w1 =>
      rw [hr] at h
      simp only [List.map_cons]
      rw [applyRepls]
      have hstep : replaceAt (Json.obj (front ++ (k, w) :: rest)) (k :: ts1) v1 =
          .ok (Json.obj (front ++ (k, w1) :: rest)) := by
        show (replaceInObj (front ++ (k, w) :: rest) k ts1 v1).map Json.obj = _
        rw [replaceInObj_frame _ _ _ _ _ _ hk, hr]
        rfl
      rw [hstep]
      exact ih front k w1 rest res hk h

theorem replaceInArr_frame (front : List Json) (x : Json) (xa : List Json)
    (ts : List String) (v : Json) :
    replaceInArr (front ++ x :: xa) front.length ts v =
      (replaceAt x ts v).map (fun x2 => front ++ x2 :: xa) := by
  induction front with
  | nil => simp only [List.nil_append, List.length_nil, replaceInArr]
  | cons y front2 ih =>
    have ih2 : replaceInArr (front2.append (x :: xa)) front2.length ts v =
        (replaceAt x ts v).map (fun x2 => front2 ++ x2 :: xa) := ih
    simp only [List.cons_append, List.length_cons, replaceInArr, ih2, ex_map_map]

theorem applyRepls_arr_frame (ops : List (List String × Json)) :
    ∀ (front : List Json) (x : Json) (xa : List Json) (res : Json),
      applyRepls x ops = .ok res →
      applyRepls (.arr (front ++ x :: xa))
          (ops.map (fun tv => (natStr front.length :: tv.1, tv.2))) =
        .ok (.arr (front ++ res :: xa)) := by
  induction ops with
  | nil =>
    intro front x xa res h
    rw [applyRepls] at h
    cases h
    rfl
  | cons tv ops2 ih =>
    intro front x xa res h
    obtain ⟨ts1, v1⟩ := tv
    rw [applyRepls] at h
    cases hr : replaceAt x ts1 v1 with
    | error e =>
      rw [hr] at h
      cases h
    | ok x1 =>
      rw [hr] at h
      simp only [List.map_cons]
      rw [applyRepls]
      have hstep : replaceAt (Json.arr (front ++ x :: xa)) (natStr front.length :: ts1) v1 =
          .ok (Json.arr (front ++ x1 :: xa)) := by
        show (match tokenToIndex (natStr front.length) with
          | some i => (replaceInArr (front ++ x :: xa) i ts1 v1).map Json.arr
          | none => .error "invalid array index") = _
        rw [tokenToIndex_natStr]
        simp only [replaceInArr_frame, hr]
        rfl
      rw [hstep]
      exact ih front x1 xa res h

theorem applyRepls_append (l1 : List (List String × Json)) :
    ∀ (l2 : List (List String × Json)) (doc : Json),
      applyRepls doc (l1 ++ l2) =
        match applyRepls doc l1 with
        | .ok d => applyRepls d l2
        | .error e => .error e := by
  induction l1 with
  | nil => intro l2 doc; rfl
  | cons tv l1b ih =>
    intro l2 doc
    obtain ⟨ts, v⟩ := tv
    simp only [List.cons_append, applyRepls]
    cases hr : replaceAt doc ts v with
    | ok d2 => exact ih l2 d2
    | error e => rfl

/-! #### Well-formedness helpers -/

theorem wfO_mem : ∀ kvs : List (String × Json), wfO kvs = true →
    ∀ pa ∈ kvs, wfJ pa.2 = true := by
  intro kvs
  induction kvs with
  | nil => intro _ pa h; cases h
  | cons p rest ih =>
    obtain ⟨k, v⟩ := p
    intro h pa hmem
    rw [wfO, Bool.and_eq_true] at h
    rcases List.mem_cons.mp hmem with h2 | h2
    · rw [h2]
      exact h.1
    · exact ih h.2 pa h2

theorem wfL_mem : ∀ xs : List Json, wfL xs = true → ∀ x ∈ xs, wfJ x = true := by
  intro xs
  induction xs with
  | nil => intro _ x h; cases h
  | cons y rest ih =>
    intro h x hmem
    rw [wfL, Bool.and_eq_true] at h
    rcases List.mem_cons.mp hmem with h2 | h2
    · rw [h2]
      exact h.1
    · exact ih h.2 x h2

/-! #### The round-trip induction -/

theorem diffKVs_roundtrip :
    ∀ (ka kb front : List (String × Json)),
      (∀ pa ∈ ka, ∀ b2 : Json, wfJ b2 = true →
        applyRepls pa.2 (diffT pa.2 b2) = .ok b2) →
      ka.map Prod.fst = kb.map Prod.fst →
      keyNodup ka = true →
      wfO kb = true →
      (∀ k ∈ ka.map Prod.fst, k ∉ front.map Prod.fst) →
      applyRepls (.obj (front ++ ka)) (diffKVs ka kb) = .ok (.obj (front ++ kb)) := by
  intro ka
  induction ka with
  | nil =>
    intro kb front _ hkeys _ _ _
    have hkb : kb = [] := by
      have := hkeys.symm
      simp only [List.map_nil, List.map_eq_nil_iff] at this
      exact this
    subst hkb
    rfl
  | cons pa ka2 ih =>
    intro kb front H hkeys hnd hwkb hdisj
    obtain ⟨k, va⟩ := pa
    cases kb with
    | nil => simp at hkeys
    | cons pb kb2 =>
      obtain ⟨k2, vb⟩ := pb
      simp only [List.map_cons, List.cons.injEq] at hkeys
      obtain ⟨hk12, hkeys2⟩ := hkeys
      subst hk12
      rw [keyNodup, Bool.and_eq_true] at hnd
      rw [wfO, Bool.and_eq_true] at hwkb
      have hdiff : diffKVs ((k, va) :: ka2) ((k, vb) :: kb2) =
          (diffT va vb).map (fun tv => (k :: tv.1, tv.2)) ++ diffKVs ka2 kb2 := by
        rw [diffKVs]
      rw [hdiff, applyRepls_append]
      have hfirst : applyRepls (Json.obj (front ++ (k, va) :: ka2))
          ((diffT va vb).map (fun tv => (k :: tv.1, tv.2))) =
          .ok (Json.obj (front ++ (k, vb) :: ka2)) :=
        applyRepls_obj_frame (diffT va vb) front k va ka2 vb
          (hdisj k (by simp))
          (H (k, va) (List.mem_cons_self _ _) vb hwkb.1)
      rw [hfirst]
      have hstep : Json.obj (front ++ (k, vb) :: ka2) =
          Json.obj ((front ++ [(k, vb)]) ++ ka2) := by simp
      have hstep2 : Json.obj (front ++ (k, vb) :: kb2) =
          Json.obj ((front ++ [(k, vb)]) ++ kb2) := by simp
      rw [hstep, hstep2]
      apply ih kb2 (front ++ [(k, vb)])
      · intro pa2 hmem b2 hw
        exact H pa2 (List.mem_cons_of_mem _ hmem) b2 hw
      · exact hkeys2
      · exact hnd.2
      · exact hwkb.2
      · intro k3 hk3
        simp only [List.map_append, List.map_cons, List.map_nil, List.mem_append,
          List.mem_singleton]
        rintro (h3 | h3)
        · exact hdisj k3 (by simp [hk3]) h3
        · subst h3
          have hno : ka2.any (fun kv => kv.1 == k3) = false := by
            cases hx : ka2.any (fun kv => kv.1 == k3)
            · rfl
            · rw [hx] at hnd
              simp at hnd
          rcases List.mem_map.mp hk3 with ⟨kv, hkv, hfst⟩
          have hyes : ka2.any (fun kv2 => kv2.1 == k3) = true :=
            List.any_eq_true.mpr ⟨kv, hkv, by simp [hfst]⟩
          rw [hno] at hyes
          cases hyes

theorem diffArr_roundtrip :
    ∀ (xa xb front : List Json),
      (∀ x ∈ xa, ∀ b2 : Json, wfJ b2 = true →
        applyRepls x (diffT x b2) = .ok b2) →
      xa.length = xb.length →
      wfL xb = true →
      applyRepls (.arr (front ++ xa)) (diffArr front.length xa xb) = .ok (.arr (front ++ xb)) := by
  intro xa
  induction xa with
  | nil =>
    intro xb front _ hlen _
    have hxb : xb = [] := by
      cases xb
      · rfl
      · simp at hlen
    subst hxb
    rfl
  | cons x xa2 ih =>
    intro xb front H hlen hwxb
    cases xb with
    | nil => simp at hlen
    | cons y xb2 =>
      simp only [List.length_cons, Nat.add_right_cancel_iff] at hlen
      rw [wfL, Bool.and_eq_true] at hwxb
      have hdiff : diffArr front.length (x :: xa2) (y :: xb2) =
          (diffT x y).map (fun tv => (natStr front.length :: tv.1, tv.2)) ++
            diffArr (front.length + 1) xa2 xb2 := by
        rw [diffArr]
      rw [hdiff, applyRepls_append]
      have hfirst : applyRepls (Json.arr (front ++ x :: xa2))
          ((diffT x y).map (fun tv => (natStr front.length :: tv.1, tv.2))) =
          .ok (Json.arr (front ++ y :: xa2)) :=
        applyRepls_arr_frame (diffT x y) front x xa2 y
          (H x (List.mem_cons_self _ _) y hwxb.1)
      rw [hfirst]
      have hstep : Json.arr (front ++ y :: xa2) = Json.arr ((front ++ [y]) ++ xa2) := by simp
      have hstep2 : Json.arr (front ++ y :: xb2) = Json.arr ((front ++ [y]) ++ xb2) := by simp
      have hlen2 : front.length + 1 = (front ++ [y]).length := by simp
      rw [hstep, hstep2, hlen2]
      apply ih xb2 (front ++ [y])
      · intro x2 hmem b2 hw
        exact H x2 (List.mem_cons_of_mem _ hmem) b2 hw
      · exact hlen
      · exact hwxb.2

theorem diffT_roundtrip_bounded :
    ∀ (N : Nat) (a b : Json), sizeOf a ≤ N → wfJ a = true → wfJ b = true →
      applyRepls a (diffT a b) = .ok b := by
  intro N
  induction N with
  | zero =>
    intro a b hsz _ _
    exact absurd hsz (by cases a <;> simp)
  | succ m ih =>
    intro a b hsz ha hb
    by_cases hab : a = b
    · subst hab
      have hself : diffT a a = [] := by cases a <;> simp [diffT]
      rw [hself]
      rfl
    · cases a with
      | obj ka =>
        cases b with
        | obj kb =>
          simp only [diffT]
          rw [if_neg hab]
          by_cases hkeys : ka.map Prod.fst = kb.map Prod.fst
          · rw [if_pos hkeys]
            rw [wfJ, Bool.and_eq_true] at ha hb
            have H : ∀ pa ∈ ka, ∀ b2 : Json, wfJ b2 = true →
                applyRepls pa.2 (diffT pa.2 b2) = .ok b2 := by
              intro pa hmem b2 hw
              have h1 : sizeOf pa < sizeOf ka := List.sizeOf_lt_of_mem hmem
              have h2 : sizeOf pa.2 < sizeOf pa := by
                obtain ⟨k, v⟩ := pa
                simp
              have h3 : sizeOf (Json.obj ka) = 1 + sizeOf ka := by simp
              rw [h3] at hsz
              apply ih pa.2 b2 (by omega) _ hw
              exact wfO_mem ka ha.2 pa hmem
            have := diffKVs_roundtrip ka kb [] H hkeys ha.1 hb.2 (by simp)
            simpa using this
          · rw [if_neg hkeys]
            rfl
        | null => simp only [diffT]; rw [if_neg hab]; rfl
        | bool b2 => simp only [diffT]; rw [if_neg hab]; rfl
        | num n2 => simp only [diffT]; rw [if_neg hab]; rfl
        | str s2 => simp only [diffT]; rw [if_neg hab]; rfl
        | arr xb => simp only [diffT]; rw [if_neg hab]; rfl
      | arr xa =>
        cases b with
        | arr xb =>
          simp only [diffT]
          rw [if_neg hab]
          by_cases hlen : xa.length = xb.length
          · rw [if_pos hlen]
            rw [wfJ] at ha hb
            have H : ∀ x ∈ xa, ∀ b2 : Json, wfJ b2 = true →
                applyRepls x (diffT x b2) = .ok b2 := by
              intro x hmem b2 hw
              have h1 : sizeOf x < sizeOf xa := List.sizeOf_lt_of_mem hmem
              have h3 : sizeOf (Json.arr xa) = 1 + sizeOf xa := by simp
              rw [h3] at hsz
              apply ih x b2 (by omega) _ hw
              exact wfL_mem xa ha x hmem
            have := diffArr_roundtrip xa xb [] H hlen hb
            simpa using this
          · rw [if_neg hlen]
            rfl
        | null => simp only [diffT]; rw [if_neg hab]; rfl
        | bool b2 => simp only [diffT]; rw [if_neg hab]; rfl
        | num n2 => simp only [diffT]; rw [if_neg hab]; rfl
        | str s2 => simp only [diffT]; rw [if_neg hab]; rfl
        | obj kb => simp only [diffT]; rw [if_neg hab]; rfl
      | null =>
        cases b <;> (simp only [diffT]; split <;>
          first | rfl | (rename_i h; rw [h]; rfl))
      | bool b1 =>
        cases b <;> (simp only [diffT]; split <;>
          first | rfl | (rename_i h; rw [h]; rfl))
      | num n1 =>
        cases b <;> (simp only [diffT]; split <;>
          first | rfl | (rename_i h; rw [h]; rfl))
      | str s1 =>
        cases b <;> (simp only [diffT]; split <;>
          first | rfl | (rename_i h; rw [h]; rfl))

theorem diffT_roundtrip (a b : Json) (ha : wfJ a = true) (hb : wfJ b = true) :
    applyRepls a (diffT a b) = .ok b :=
  diffT_roundtrip_bounded (sizeOf a) a b le_rfl ha hb

/-- C9 counterexample: for `A = {}` and `B = {"foo": 1}`, the computed
diff touches a location outside the allow-list, so `apply_patch` rejects
it instead of producing `B` — the round trip fails through the exported
`apply_patch`. -/
theorem diff_roundtrip_counterexample :
    apply_patch (Json.obj [])
        (create_patch_diff (Json.obj []) (Json.obj [("foo", Json.num 1)])) =
      .error "Invalid patch operations" ∧
    Except.error "Invalid patch operations" ≠
      (.ok (Json.obj [("foo", Json.num 1)]) : Except String Json) := by
  exact ⟨rfl, by simp⟩

/-- C9 (amended): for all well-formed documents A and B (every embedded
mapping has distinct keys, as Python dicts do), applying the patch
produced by `create_patch_diff(A, B)` to A with the underlying patch
application — the library application `apply_patch` delegates to after
validation — yields exactly B; the exported `apply_patch` additionally
enforces the path allow-list and therefore rejects any diff whose
operations fall outside it (e.g. A = `{}`, B = `{"foo": 1}`). -/
theorem diff_patch_roundtrip (a b : Json) (ha : wfJ a = true) (hb : wfJ b = true) :
    applySeq a (create_patch_diff a b) = .ok b := by
  rw [create_patch_diff, applySeq_diffops]
  exact diffT_roundtrip a b ha hb

/-- Witness for `diff_patch_roundtrip`: a title change plus a reshaped
steps array round-trip exactly. -/
theorem diff_patch_roundtrip_witness :
    applySeq (Json.obj [("title", Json.str "T"), ("steps", Json.arr [Json.num 1])])
        (create_patch_diff
          (Json.obj [("title", Json.str "T"), ("steps", Json.arr [Json.num 1])])
          (Json.obj [("title", Json.str "T2"), ("steps", Json.arr [Json.num 7])])) =
      .ok (Json.obj [("title", Json.str "T2"), ("steps", Json.arr [Json.num 7])]) :=
  diff_patch_roundtrip
    (Json.obj [("title", Json.str "T"), ("steps", Json.arr [Json.num 1])])
    (Json.obj [("title", Json.str "T2"), ("steps", Json.arr [Json.num 7])])
    rfl rfl

/-! ### Plan-synthesis payload normalization (`openai_client.gpt5_plan`)

The normalization of the raw model payload into a `PlanJSON`
(lines 150-252 of `openai_client.py`): root unwrapping, field aliasing,
step/file coercion, template backfill, and Pydantic validation. -/

/-- JSON-escape the characters Python's `json.dumps` escapes. -/
def escJsonStr : List Char → List Char
  | [] => []
  | c :: rest =>
    if c = '"' then '\\' :: '"' :: escJsonStr rest
    else if c = '\\' then '\\' :: '\\' :: escJsonStr rest
    else if c = '\n' then '\\' :: 'n' :: escJsonStr rest
    else if c = '\t' then '\\' :: 't' :: escJsonStr rest
    else if c = '\r' then '\\' :: 'r' :: escJsonStr rest
    else c :: escJsonStr rest

mutual

/-- `json.dumps` with its default separators. -/
def jsonDumps : Json → String
  | .null => "null"
  | .bool true => "true"
  | .bool false => "false"
  | .num n => toString n
  | .str s => String.mk ('"' :: (escJsonStr s.toList ++ ['"']))
  | .arr xs => String.mk ('[' :: ((jsonDumpsList xs).toList ++ [']']))
  | .obj kvs => String.mk ('\x7b' :: ((jsonDumpsObj kvs).toList ++ ['\x7d']))

def jsonDumpsList : List Json → String
  | [] => ""
  | [x] => jsonDumps x
  | x :: xs => jsonDumps x ++ ", " ++ jsonDumpsList xs

def jsonDumpsObj : List (String × Json) → String
  | [] => ""
  | [(k, v)] => String.mk ('"' :: (escJsonStr k.toList ++ ['"'])) ++ ": " ++ jsonDumps v
  | (k, v) :: rest =>
    String.mk ('"' :: (escJsonStr k.toList ++ ['"'])) ++ ": " ++ jsonDumps v ++ ", " ++
      jsonDumpsObj rest

end

mutual

/-- Python `repr` of a JSON value (container elements are shown with
`repr`; string escaping inside is elided in this model). -/
def pyRepr : Json → String
  | .null => "None"
  | .bool true => "True"
  | .bool false => "False"
  | .num n => toString n
  | .str s => "'" ++ s ++ "'"
  | .arr xs => String.mk ('[' :: ((pyReprList xs).toList ++ [']']))
  | .obj kvs => String.mk ('\x7b' :: ((pyReprObj kvs).toList ++ ['\x7d']))

def pyReprList : List Json → String
  | [] => ""
  | [x] => pyRepr x
  | x :: xs => pyRepr x ++ ", " ++ pyReprList xs

def pyReprObj : List (String × Json) → String
  | [] => ""
  | [(k, v)] => "'" ++ k ++ "': " ++ pyRepr v
  | (k, v) :: rest => "'" ++ k ++ "': " ++ pyRepr v ++ ", " ++ pyReprObj rest

end

/-- Python `str()` of a JSON value. -/
def pyStr : Json → String
  | .str s => s
  | j => pyRepr j

/-- The Pydantic `PlanStep` model (`models.py`): `kind` is the literal
`code`/`test`/`config`, `target` and `summary` are strings. -/
structure PlanStep where
  kind : String
  target : String
  summary : String

/-- The Pydantic `PlanFile` model: `path` and `content` strings. -/
structure PlanFile where
  path : String
  content : String

/-- The Pydantic `PlanJSON` model: all fields required, lists may be
empty (the model declares no minimum length). -/
structure PlanJSON where
  title : String
  steps : List PlanStep
  files : List PlanFile
  risks : List String
  tests : List String
  prBody : String

/-- Effectful map over a list, failing at the first invalid element
(Pydantic list-field validation). -/
def exMapList (f : Json → Except String α) : List Json → Except String (List α)
  | [] => .ok []
  | x :: xs => do
    let y ← f x
    let ys ← exMapList f xs
    .ok (y :: ys)

def validateStr : Json → Except String String
  | .str s => .ok s
  | _ => .error "expected a string"

def validateStep (j : Json) : Except String PlanStep :=
  match j with
  | .obj kvs =>
    match lookupKey "kind" kvs, lookupKey "target" kvs, lookupKey "summary" kvs with
    | some (.str k), some (.str t), some (.str s) =>
      if k = "code" ∨ k = "test" ∨ k = "config" then .ok ⟨k, t, s⟩
      else .error "kind must be code, test or config"
    | _, _, _ => .error "invalid step"
  | _ => .error "step must be an object"

def validateFile (j : Json) : Except String PlanFile :=
  match j with
  | .obj kvs =>
    match lookupKey "path" kvs, lookupKey "content" kvs with
    | some (.str p), some (.str c) => .ok ⟨p, c⟩
    | _, _ => .error "invalid file"
  | _ => .error "file must be an object"

def validateJList (f : Json → Except String α) : Json → Except String (List α)
  | .arr l => exMapList f l
  | _ => .error "expected a list"

/-- Pydantic construction `PlanJSON(title=..., steps=..., ...)`. -/
def mkPlanJSON (title steps files risks tests prBody : Json) :
    Except String PlanJSON := do
  let t ← validateStr title
  let st ← validateJList validateStep steps
  let fl ← validateJList validateFile files
  let rk ← validateJList validateStr risks
  let ts ← validateJList validateStr tests
  let pb ← validateStr prBody
  .ok ⟨t, st, fl, rk, ts, pb⟩

/-- Python `x or y` on JSON values. -/
def orJ (a b : Json) : Json := if a.truthy then a else b

/-- `_get(obj, *candidates, default)`: the first candidate key present
with a non-`None` value, else the default. -/
def getAlias (kvs : List (String × Json)) : List String → Json → Json
  | [], dflt => dflt
  | k :: rest, dflt =>
    match lookupKey k kvs with
    | some v => if v = .null then getAlias kvs rest dflt else v
    | none => getAlias kvs rest dflt

/-- `_coerce_step` (`openai_client.py` lines 181-187). -/
def coerceStep (s : Json) : Json :=
  match s with
  | .obj kvs =>
    .obj [("kind", orJ (getKeyD "kind" kvs .null) (.str "code")),
          ("target", orJ (getKeyD "target" kvs .null)
            (orJ (getKeyD "path" kvs .null) (.str "src/main"))),
          ("summary", orJ (getKeyD "summary" kvs .null)
            (orJ (getKeyD "description" kvs .null) (.str "Implement step")))]
  | _ =>
    .obj [("kind", .str "code"), ("target", .str "src/main"),
          ("summary", .str (pyStr s))]

/-- The `{content: {language, code}}` unwrapping of `_coerce_file`:
`body = f.get("body") or f.get("code")`, kept when a string,
`json.dumps`-ed when another non-`None` value, else `""`. -/
def contentFromBody (kvs : List (String × Json)) : Json :=
  match orJ (getKeyD "body" kvs .null) (getKeyD "code" kvs .null) with
  | .str s => .str s
  | .null => .str ""
  | j => .str (jsonDumps j)

/-- `_coerce_file` (`openai_client.py` lines 192-201). -/
def coerceFile (f : Json) : Json :=
  match f with
  | .obj kvs =>
    .obj [("path", orJ (getKeyD "path" kvs .null)
            (orJ (getKeyD "file" kvs .null) (.str "README.md"))),
          ("content",
            match lookupKey "content" kvs with
            | some v => if v = .null then contentFromBody kvs else v
            | none => contentFromBody kvs)]
  | _ => .obj [("path", .str "README.md"), ("content", .str (pyStr f))]

/-- The `tmpl` the fallback block computes:
`pattern.get("template", {}) if isinstance(pattern, dict) else {}`. -/
def tmplOf (pattern : Json) : Json :=
  match pattern with
  | .obj pk => getKeyD "template" pk (.obj [])
  | _ => .obj []

def defaultStepsJson : List Json :=
  [.obj [("kind", .str "code"), ("target", .str "main"),
         ("summary", .str "Implement core functionality")],
   .obj [("kind", .str "test"), ("target", .str "tests"),
         ("summary", .str "Add tests")],
   .obj [("kind", .str "config"), ("target", .str "config"),
         ("summary", .str "Update configuration")]]

def defaultRisksJson : List Json :=
  [.str "Consider edge cases", .str "Test thoroughly"]

def defaultTestsJson : List Json :=
  [.str "Unit tests", .str "Integration tests"]

/-- The `files` fallback README content. -/
def defaultReadme (title : Json) (idea : String) : String :=
  "# " ++ pyStr title ++ "\n\nThis project implements: " ++ idea ++
    "\n\n## Notes\n- Generated with default fallbacks."

/-- The root object the normalization works on: the payload itself, or
its `"plan"` member when that member is a mapping. -/
def rootOf (raw : Json) : Json :=
  match raw with
  | .obj kvs =>
    match lookupKey "plan" kvs with
    | some (.obj pkvs) => Json.obj pkvs
    | _ => raw
  | _ => raw

/-- The field extraction, coercion, fallback block and validation of
`gpt5_plan` over a root mapping.  The fallback block is silently skipped
from its first executed `tmpl.get` when `tmpl` is not a mapping (the
block's `except Exception: pass`). -/
def normalizeFields (idea : String) (pattern : Json)
    (rkvs : List (String × Json)) : Except String PlanJSON :=
  let title := getAlias rkvs ["title", "name"] (.str ("Development Plan: " ++ idea))
  let steps0 := getAlias rkvs ["steps"] (.arr [])
  let files0 := getAlias rkvs ["files"] (.arr [])
  let risks0 := getAlias rkvs ["risks"] (.arr [])
  let tests0 := getAlias rkvs ["tests"] (.arr [])
  let prBody0 := getAlias rkvs ["prBody", "pr_body"]
    (.str ("## Development Plan: " ++ idea))
  let steps1 : List Json := match steps0 with | .arr l => l | _ => []
  let files1 : List Json := match files0 with | .arr l => l | _ => []
  let risks1 : List Json := match risks0 with | .arr l => l | _ => []
  let tests1 : List Json := match tests0 with | .arr l => l | _ => []
  let steps2 := Json.arr (steps1.map coerceStep)
  let files2 := Json.arr (files1.map coerceFile)
  match tmplOf pattern with
  | .obj tk =>
    let stepsF := if steps2.truthy then steps2
      else orJ (getKeyD "steps" tk (.arr [])) (.arr defaultStepsJson)
    let filesF := if files2.truthy then files2
      else orJ (getKeyD "files" tk (.arr []))
        (.arr [.obj [("path", .str "README.md"),
                      ("content", .str (defaultReadme title idea))]])
    let risksF := if (Json.arr risks1).truthy then Json.arr risks1
      else orJ (getKeyD "risks" tk (.arr [])) (.arr defaultRisksJson)
    let testsF := if (Json.arr tests1).truthy then Json.arr tests1
      else orJ (getKeyD "tests" tk (.arr [])) (.arr defaultTestsJson)
    let prBodyF := if prBody0.truthy then prBody0
      else getKeyD "prBody" tk (.str ("## Development Plan: " ++ idea))
    mkPlanJSON title stepsF filesF risksF testsF prBodyF
  | _ =>
    mkPlanJSON title steps2 files2 (Json.arr risks1) (Json.arr tests1) prBody0

/-- The payload normalization of `gpt5_plan` after a parseable payload
`raw` was extracted (`openai_client.py` lines 152-252).  Collaborator
I/O (the OpenAI call itself) is outside this function. -/
def gpt5PlanNormalize (idea : String) (pattern : Json) (raw : Json) :
    Except String PlanJSON :=
  match rootOf raw with
  | .obj rkvs => normalizeFields idea pattern rkvs
  | _ => .error "Plan payload is not a JSON object"

/-! ### Claim C5 — non-degenerate plans -/

theorem exbind_ok (a : α) (f : α → Except String β) :
    (Except.ok a >>= f : Except String β) = f a := rfl

theorem exbind_err (e : String) (f : α → Except String β) :
    ((Except.error e : Except String α) >>= f) = .error e := rfl

theorem exMapList_length (f : Json → Except String α) :
    ∀ (l : List Json) (out : List α), exMapList f l = .ok out → out.length = l.length := by
  intro l
  induction l with
  | nil =>
    intro out h
    rw [exMapList] at h
    cases h
    rfl
  | cons x xs ih =>
    intro out h
    rw [exMapList] at h
    cases h1 : f x with
    | error e =>
      rw [h1, exbind_err] at h
      cases h
    | ok y =>
      rw [h1, exbind_ok] at h
      cases h2 : exMapList f xs with
      | error e =>
        rw [h2, exbind_err] at h
        cases h
      | ok ys =>
        rw [h2, exbind_ok] at h
        cases h
        simp [ih ys h2]

theorem arr_truthy_iff (l : List Json) : (Json.arr l).truthy = true ↔ l ≠ [] := by
  cases l <;> simp [Json.truthy]

theorem mkPlanJSON_inv (t st fl rk ts pb : Json) (p : PlanJSON)
    (h : mkPlanJSON t st fl rk ts pb = .ok p) :
    validateStr t = .ok p.title ∧
    validateJList validateStep st = .ok p.steps ∧
    validateJList validateFile fl = .ok p.files ∧
    validateJList validateStr rk = .ok p.risks ∧
    validateJList validateStr ts = .ok p.tests ∧
    validateStr pb = .ok p.prBody := by
  unfold mkPlanJSON at h
  cases h1 : validateStr t <;> rw [h1] at h
  case error => rw [exbind_err] at h; cases h
  case ok a1 =>
  rw [exbind_ok] at h
  cases h2 : validateJList validateStep st <;> rw [h2] at h
  case error => rw [exbind_err] at h; cases h
  case ok a2 =>
  rw [exbind_ok] at h
  cases h3 : validateJList validateFile fl <;> rw [h3] at h
  case error => rw [exbind_err] at h; cases h
  case ok a3 =>
  rw [exbind_ok] at h
  cases h4 : validateJList validateStr rk <;> rw [h4] at h
  case error => rw [exbind_err] at h; cases h
  case ok a4 =>
  rw [exbind_ok] at h
  cases h5 : validateJList validateStr ts <;> rw [h5] at h
  case error => rw [exbind_err] at h; cases h
  case ok a5 =>
  rw [exbind_ok] at h
  cases h6 : validateStr pb <;> rw [h6] at h
  case error => rw [exbind_err] at h; cases h
  case ok a6 =>
  rw [exbind_ok] at h
  cases h
  exact ⟨rfl, rfl, rfl, rfl, rfl, rfl⟩

theorem validateJList_ok_arr (f : Json → Except String α) (j : Json) (out : List α)
    (h : validateJList f j = .ok out) :
    ∃ l, j = .arr l ∧ exMapList f l = .ok out := by
  cases j with
  | arr l => exact ⟨l, rfl, h⟩
  | null => exact absurd h (by simp [validateJList])
  | bool b => exact absurd h (by simp [validateJList])
  | num n => exact absurd h (by simp [validateJList])
  | str s => exact absurd h (by simp [validateJList])
  | obj kvs => exact absurd h (by simp [validateJList])

theorem backfilled_nonempty (base : List Json) (tk : List (String × Json))
    (k : String) (dflt : List Json) (hd : dflt ≠ []) (f : Json → Except String α)
    (out : List α)
    (h : validateJList f
        (if (Json.arr base).truthy then Json.arr base
         else orJ (getKeyD k tk (.arr [])) (.arr dflt)) = .ok out) :
    out ≠ [] := by
  by_cases ht : (Json.arr base).truthy = true
  · rw [if_pos ht] at h
    obtain ⟨l, hl, hmap⟩ := validateJList_ok_arr f _ out h
    injection hl with hl2
    subst hl2
    have hlen := exMapList_length f base out hmap
    have hbase := (arr_truthy_iff base).mp ht
    intro hout
    rw [hout] at hlen
    exact hbase (List.eq_nil_of_length_eq_zero hlen.symm)
  · rw [if_neg ht, orJ] at h
    by_cases hw : (getKeyD k tk (.arr [])).truthy = true
    · rw [if_pos hw] at h
      obtain ⟨l, hl, hmap⟩ := validateJList_ok_arr f _ out h
      rw [hl] at hw
      have hlne := (arr_truthy_iff l).mp hw
      have hlen := exMapList_length f l out hmap
      intro hout
      rw [hout] at hlen
      exact hlne (List.eq_nil_of_length_eq_zero hlen.symm)
    · rw [if_neg hw] at h
      obtain ⟨l, hl, hmap⟩ := validateJList_ok_arr f _ out h
      injection hl with hl2
      subst hl2
      have hlen := exMapList_length f dflt out hmap
      intro hout
      rw [hout] at hlen
      exact hd (List.eq_nil_of_length_eq_zero hlen.symm)

/-- The concrete plan produced in the backfill-skip counterexample. -/
def cexPlanC5 : PlanJSON :=
  ⟨"Development Plan: x", [], [], [], [], "## Development Plan: x"⟩

/-- C5 counterexample: with a parseable (but sparse) payload `{}` and a
selected pattern whose `template` is a JSON list rather than a mapping,
the backfill block dies on its first `tmpl.get` (swallowed by the block's
`except Exception: pass`), no backfill happens, and `gpt5_plan` returns a
PlanDocument whose `steps`, `files`, `risks`, `tests` are all empty —
contradicting the claim. -/
theorem plan_backfill_counterexample :
    gpt5PlanNormalize "x" (Json.obj [("template", Json.arr [])]) (Json.obj []) =
      .ok cexPlanC5 ∧
    cexPlanC5.steps = [] ∧ cexPlanC5.files = [] ∧
    cexPlanC5.risks = [] ∧ cexPlanC5.tests = [] :=
  ⟨rfl, rfl, rfl, rfl, rfl⟩

/-- C5 (amended): whenever the plan-synthesis call returns a parseable
payload and the selected pattern's `template` is a JSON mapping (it is a
mapping in the built-in fallback pattern; a pattern that is not a mapping
also yields the empty-mapping template), every PlanDocument produced by
the normalization has non-empty `steps`, `files`, `risks` and `tests`,
backfilled from the template or from the built-in defaults; when the
pattern is a mapping whose `template` value is present but not itself a
mapping, the backfill block is silently skipped and empty lists can
escape. -/
theorem normalizeFields_nonempty (idea : String) (pattern : Json)
    (rkvs : List (String × Json)) (plan : PlanJSON) (tk : List (String × Json))
    (htmpl : tmplOf pattern = Json.obj tk)
    (hok : normalizeFields idea pattern rkvs = .ok plan) :
    plan.steps ≠ [] ∧ plan.files ≠ [] ∧ plan.risks ≠ [] ∧ plan.tests ≠ [] := by
  unfold normalizeFields at hok
  rw [htmpl] at hok
  simp only [] at hok
  obtain ⟨_, hst, hfl, hrk, hts, _⟩ := mkPlanJSON_inv _ _ _ _ _ _ plan hok
  refine ⟨?_, ?_, ?_, ?_⟩
  · exact backfilled_nonempty _ tk "steps" defaultStepsJson (by simp [defaultStepsJson])
      validateStep plan.steps hst
  · exact backfilled_nonempty _ tk "files" _ (by simp)
      validateFile plan.files hfl
  · exact backfilled_nonempty _ tk "risks" defaultRisksJson (by simp [defaultRisksJson])
      validateStr plan.risks hrk
  · exact backfilled_nonempty _ tk "tests" defaultTestsJson (by simp [defaultTestsJson])
      validateStr plan.tests hts

theorem plan_backfill_nonempty (idea : String) (pattern raw : Json)
    (plan : PlanJSON) (tk : List (String × Json))
    (htmpl : tmplOf pattern = Json.obj tk)
    (hok : gpt5PlanNormalize idea pattern raw = .ok plan) :
    plan.steps ≠ [] ∧ plan.files ≠ [] ∧ plan.risks ≠ [] ∧ plan.tests ≠ [] := by
  unfold gpt5PlanNormalize at hok
  cases hroot : rootOf raw with
  | obj rkvs =>
    rw [hroot] at hok
    exact normalizeFields_nonempty idea pattern rkvs plan tk htmpl hok
  | null => rw [hroot] at hok; cases hok
  | bool b => rw [hroot] at hok; cases hok
  | num n => rw [hroot] at hok; cases hok
  | str s => rw [hroot] at hok; cases hok
  | arr xs => rw [hroot] at hok; cases hok

/-- The plan the normalization produces for the empty payload and the
empty-mapping template: everything from the built-in defaults. -/
def planWitnessC5 : PlanJSON :=
  ⟨"Development Plan: add search",
   [⟨"code", "main", "Implement core functionality"⟩,
    ⟨"test", "tests", "Add tests"⟩,
    ⟨"config", "config", "Update configuration"⟩],
   [⟨"README.md",
     "# Development Plan: add search\n\nThis project implements: add search\n\n## Notes\n- Generated with default fallbacks."⟩],
   ["Consider edge cases", "Test thoroughly"],
   ["Unit tests", "Integration tests"],
   "## Development Plan: add search"⟩

/-- Witness for `plan_backfill_nonempty`: the empty payload with the
empty-mapping template backfills everything from the built-in defaults. -/
theorem plan_backfill_nonempty_witness :
    planWitnessC5.steps ≠ [] ∧ planWitnessC5.files ≠ [] ∧
    planWitnessC5.risks ≠ [] ∧ planWitnessC5.tests ≠ [] :=
  plan_backfill_nonempty "add search" (Json.obj []) (Json.obj [])
    planWitnessC5 [] rfl rfl

/-! ### The generation pipeline (`graph.py`)

The five LangGraph nodes are wired by unconditional edges
(`intent_parser → pattern_loader → style_adapter → design →
style_adaptation`), so a `workflow.ainvoke` is their sequential
composition.  External collaborators (`analyze_intent`, `get_pattern`,
`get_style_profile`, the `gpt5_plan` call) are injected as a record;
a raised exception is embedded as `Except.error`. -/

/-- The intent dict produced by `analyze_intent`. -/
structure Intent where
  feature : Option String := none
  route : Option String := none

/-- The injected collaborators of the pipeline. -/
structure Collab where
  analyze_intent : String → Except String Intent
  get_pattern : String → Option Json
  get_style_profile : String → Option Json
  gpt5_plan : String → String → Json → Json → Except String PlanJSON

/-- `PlanGenerationState.__init__`: all strings empty, dicts empty. -/
structure PlanGenerationState where
  idea : String := ""
  project_id : String := ""
  user_id : String := ""
  intent : Intent := {}
  pattern : Json := .obj []
  style_profile : Json := .obj []
  plan_json : Json := .obj []
  error : String := ""

/-- `intent_parser_node`: run the intent collaborator; blank `feature`
defaults to `"general"`, blank `route` to `"/api"`; a raised exception
sets `error`. -/
def intent_parser_node (c : Collab) (s : PlanGenerationState) : PlanGenerationState :=
  match c.analyze_intent s.idea with
  | .error e => { s with error := "Intent parsing failed: " ++ e }
  | .ok it =>
    let f := match it.feature with
      | some f2 => if f2 = "" then "general" else f2
      | none => "general"
    let r := match it.route with
      | some r2 => if r2 = "" then "/api" else r2
      | none => "/api"
    { s with intent := ⟨some f, some r⟩ }

/-- The built-in minimal default pattern of `pattern_loader_node`. -/
def defaultPatternJson : Json :=
  .obj [("slug", .str "default"),
        ("template", .obj [
          ("steps", .arr defaultStepsJson),
          ("files", .arr []),
          ("risks", .arr defaultRisksJson),
          ("tests", .arr defaultTestsJson),
          ("prBody", .str "Implementation of requested feature")])]

/-- A falsy collaborator result (`None` or an empty dict) is treated as
a miss (`if not pattern:`). -/
def truthyHit (o : Option Json) : Option Json :=
  match o with
  | some p => if p.truthy then some p else none
  | none => none

/-- `pattern_loader_node`: look up `"{feature}-pattern"`, fall back to
`"api-search-pagination"`, then to the built-in default.  Note: this node
does not check `state.error`; it runs even after an earlier failure. -/
def pattern_loader_node (c : Collab) (s : PlanGenerationState) : PlanGenerationState :=
  let slug := (s.intent.feature.getD "general") ++ "-pattern"
  let p :=
    match truthyHit (c.get_pattern slug) with
    | some p => p
    | none =>
      match truthyHit (c.get_pattern "api-search-pagination") with
      | some p => p
      | none => defaultPatternJson
  { s with pattern := p }

/-- The default style profile of `style_adapter_node`. -/
def defaultStyleProfileJson : Json :=
  .obj [("tokens", .obj [
    ("quotes", .str "double"),
    ("semicolons", .bool true),
    ("indent", .str "spaces"),
    ("indent_size", .num 2),
    ("test_framework", .str "jest"),
    ("directories", .arr [.str "src", .str "tests"]),
    ("aliases", .obj [("@", .str "src")]),
    ("language", .str "typescript")])]

/-- `style_adapter_node`: load the user's style profile or substitute the
default.  Does not check `state.error`. -/
def style_adapter_node (c : Collab) (s : PlanGenerationState) : PlanGenerationState :=
  let sp :=
    match truthyHit (c.get_style_profile s.user_id) with
    | some p => p
    | none => defaultStyleProfileJson
  { s with style_profile := sp }

/-- `state.style_profile.get("tokens", {})`. -/
def stylTokensJson (sp : Json) : Json :=
  match sp with
  | .obj kvs => getKeyD "tokens" kvs (.obj [])
  | _ => .obj []

/-- Convert a returned `PlanJSON` Pydantic model to a plain document
(`plan_json.model_dump()`). -/
def planJSONtoJson (p : PlanJSON) : Json :=
  .obj [("title", .str p.title),
        ("steps", .arr (p.steps.map (fun st =>
          Json.obj [("kind", .str st.kind), ("target", .str st.target),
                    ("summary", .str st.summary)]))),
        ("files", .arr (p.files.map (fun f =>
          Json.obj [("path", .str f.path), ("content", .str f.content)]))),
        ("risks", .arr (p.risks.map Json.str)),
        ("tests", .arr (p.tests.map Json.str)),
        ("prBody", .str p.prBody)]

/-- `design_node`: skips when `error` is already set; otherwise calls the
plan synthesizer and stores `model_dump()` of the result, or sets
`error` on failure. -/
def design_node (c : Collab) (s : PlanGenerationState) : PlanGenerationState :=
  if s.error ≠ "" then s
  else
    match c.gpt5_plan s.idea (s.intent.route.getD "/api") s.pattern
        (stylTokensJson s.style_profile) with
    | .error e => { s with error := "Plan generation failed: " ++ e }
    | .ok plan => { s with plan_json := planJSONtoJson plan }

/-- Read the StyleTokens fields out of the tokens dict the way
`style_adaptation_node` does (a non-string `quotes` matches neither
comparison; a non-string `indent` is never `"tabs"`; non-natural
`indent_size` values, which would raise in Python, are outside the
modelled domain). -/
def styleTokensOfJson (kvs : List (String × Json)) : StyleTokens :=
  { quotes := match lookupKey "quotes" kvs with
      | some (.str q) => some q
      | _ => none,
    semicolons := (getKeyD "semicolons" kvs (.bool true)).truthy,
    indent := match lookupKey "indent" kvs with
      | some (.str i) => i
      | some _ => ""
      | none => "spaces",
    indent_size := match lookupKey "indent_size" kvs with
      | some (.num n) => n.toNat
      | _ => 2 }

/-- Rewrite one `file_data` dict in place: transform its `content`
string (a non-string content would raise in Python's `.replace`). -/
def adaptFileEntry (t : StyleTokens) (fd : Json) : Except String Json :=
  match fd with
  | .obj kvs =>
    match getKeyD "content" kvs (.str "") with
    | .str s =>
      .ok (.obj (setKey "content" (.str (String.mk (styleTransform t s.toList))) kvs))
    | _ => .error "content is not a string"
  | _ => .error "file entry is not an object"

/-- The file loop of `style_adaptation_node` over
`plan_json.get("files", [])`; a missing `files` key iterates nothing and
leaves the document unchanged. -/
def adaptFiles (t : StyleTokens) (pj : Json) : Except String Json :=
  match pj with
  | .obj kvs =>
    match lookupKey "files" kvs with
    | none => .ok (.obj kvs)
    | some (.arr l) =>
      (exMapList (adaptFileEntry t) l).map (fun l2 => Json.obj (setKey "files" (.arr l2) kvs))
    | some _ => .error "files is not a list of file entries"
  | _ => .error "plan_json is not an object"

/-- `style_adaptation_node`: skips when `error` is set or `plan_json` is
falsy; otherwise rewrites every file content with the StyleAdapter; an
exception in the loop sets `error`. -/
def style_adaptation_node (c : Collab) (s : PlanGenerationState) : PlanGenerationState :=
  if s.error ≠ "" ∨ s.plan_json.truthy = false then s
  else
    match stylTokensJson s.style_profile with
    | .obj tkvs =>
      match adaptFiles (styleTokensOfJson tkvs) s.plan_json with
      | .ok pj => { s with plan_json := pj }
      | .error e => { s with error := "Style adaptation failed: " ++ e }
    | _ => { s with error := "Style adaptation failed: tokens is not a mapping" }

/-- The compiled LangGraph: the five nodes run in sequence along the
unconditional edges of `create_plan_generation_graph`. -/
def run_pipeline (c : Collab) (s0 : PlanGenerationState) : PlanGenerationState :=
  style_adaptation_node c
    (design_node c (style_adapter_node c (pattern_loader_node c (intent_parser_node c s0))))

/-- The initial state `generate_plan` builds. -/
def initState (idea project_id user_id : String) : PlanGenerationState :=
  { idea := idea, project_id := project_id, user_id := user_id }

/-- `generate_plan`: run the workflow and raise `ValueError(error)` when
the final state carries an error, else return the plan document. -/
def generate_plan (c : Collab) (idea project_id user_id : String) :
    Except String Json :=
  let final := run_pipeline c (initState idea project_id user_id)
  if final.error ≠ "" then .error final.error else .ok final.plan_json

/-! ### Claim C6 — error propagation through the pipeline -/

/-- A collaborator set whose intent analysis raises. -/
def cBoom : Collab :=
  { analyze_intent := fun _ => .error "boom",
    get_pattern := fun _ => none,
    get_style_profile := fun _ => none,
    gpt5_plan := fun _ _ _ _ => .error "unreached" }

/-- C6 counterexample: when the very first stage fails, the pattern and
style-profile loader stages still run and overwrite their context fields
(the graph edges are unconditional and those nodes do not check
`state.error`), contradicting "no later stage runs ... leaving later
context fields untouched". -/
theorem pipeline_stages_run_after_error :
    (run_pipeline cBoom (initState "idea" "p" "u")).error =
      "Intent parsing failed: boom" ∧
    (run_pipeline cBoom (initState "idea" "p" "u")).pattern = defaultPatternJson ∧
    (run_pipeline cBoom (initState "idea" "p" "u")).style_profile =
      defaultStyleProfileJson ∧
    (initState "idea" "p" "u").pattern ≠ defaultPatternJson := by
  refine ⟨rfl, rfl, rfl, ?_⟩
  simp [initState, defaultPatternJson]

theorem intent_parser_node_plan_json (c : Collab) (s : PlanGenerationState) :
    (intent_parser_node c s).plan_json = s.plan_json := by
  unfold intent_parser_node
  cases c.analyze_intent s.idea <;> rfl

/-- C6 (amended): the stages that guard on `error` (`design` and
`style_adaptation`) return the state unchanged when an error is already
set; `generate_plan` raises the final error rather than returning any
document; and whenever one of the first four stages set the error, the
plan document was never populated (`plan_json` stays the empty mapping).
However, the pattern- and style-loader stages do run after an earlier
error and update their fields (the counterexample). -/
theorem pipeline_error_propagation (c : Collab) (idea pid uid : String) :
    (∀ s : PlanGenerationState, s.error ≠ "" → design_node c s = s) ∧
    (∀ s : PlanGenerationState, s.error ≠ "" → style_adaptation_node c s = s) ∧
    ((run_pipeline c (initState idea pid uid)).error ≠ "" →
      generate_plan c idea pid uid =
        .error (run_pipeline c (initState idea pid uid)).error) ∧
    ((design_node c (style_adapter_node c (pattern_loader_node c
        (intent_parser_node c (initState idea pid uid))))).error ≠ "" →
      (run_pipeline c (initState idea pid uid)).plan_json = Json.obj []) := by
  have hdesign : ∀ s : PlanGenerationState, s.error ≠ "" → design_node c s = s := by
    intro s h
    unfold design_node
    rw [if_pos h]
  have hstyle : ∀ s : PlanGenerationState, s.error ≠ "" →
      style_adaptation_node c s = s := by
    intro s h
    unfold style_adaptation_node
    rw [if_pos (Or.inl h)]
  refine ⟨hdesign, hstyle, ?_, ?_⟩
  · intro h
    unfold generate_plan
    rw [if_pos h]
  · intro h4
    have h3pj : (style_adapter_node c (pattern_loader_node c
        (intent_parser_node c (initState idea pid uid)))).plan_json = Json.obj [] := by
      show (intent_parser_node c (initState idea pid uid)).plan_json = Json.obj []
      rw [intent_parser_node_plan_json]
      rfl
    have h4pj : (design_node c (style_adapter_node c (pattern_loader_node c
        (intent_parser_node c (initState idea pid uid))))).plan_json = Json.obj [] := by
      unfold design_node
      by_cases he3 : (style_adapter_node c (pattern_loader_node c
          (intent_parser_node c (initState idea pid uid)))).error ≠ ""
      · rw [if_pos he3]
        exact h3pj
      · rw [if_neg he3]
        cases hcall : c.gpt5_plan (style_adapter_node c (pattern_loader_node c
            (intent_parser_node c (initState idea pid uid)))).idea
            ((style_adapter_node c (pattern_loader_node c
              (intent_parser_node c (initState idea pid uid)))).intent.route.getD "/api")
            (style_adapter_node c (pattern_loader_node c
              (intent_parser_node c (initState idea pid uid)))).pattern
            (stylTokensJson (style_adapter_node c (pattern_loader_node c
              (intent_parser_node c (initState idea pid uid)))).style_profile) with
        | error e =>
          exact h3pj
        | ok plan =>
          exfalso
          apply h4
          unfold design_node
          rw [if_neg he3, hcall]
          simp only [ne_eq, Decidable.not_not] at he3
          exact he3
    show (style_adaptation_node c (design_node c (style_adapter_node c
        (pattern_loader_node c (intent_parser_node c (initState idea pid uid)))))).plan_json =
      Json.obj []
    rw [hstyle _ h4]
    exact h4pj

/-- The state with an already-set error used by the witness. -/
def errStateC6 : PlanGenerationState := { error := "E" }

/-- Witness for `pipeline_error_propagation` at the failing-intent
collaborators. -/
theorem pipeline_error_propagation_witness :
    design_node cBoom errStateC6 = errStateC6 ∧
    style_adaptation_node cBoom errStateC6 = errStateC6 ∧
    generate_plan cBoom "idea" "p" "u" =
      .error (run_pipeline cBoom (initState "idea" "p" "u")).error ∧
    (run_pipeline cBoom (initState "idea" "p" "u")).plan_json = Json.obj [] :=
  ⟨(pipeline_error_propagation cBoom "idea" "p" "u").1 errStateC6 (by decide),
   (pipeline_error_propagation cBoom "idea" "p" "u").2.1 errStateC6 (by decide),
   (pipeline_error_propagation cBoom "idea" "p" "u").2.2.1 (by decide),
   (pipeline_error_propagation cBoom "idea" "p" "u").2.2.2 (by decide)⟩

end Blueprinter
